import Mathlib

/-!
Verification of chi-healthcheck-middleware.

Shallow embedding of `config.go` and `healthchecker.go`.

* A Go `string` is a sequence of bytes: `GoString`.
* The two functions of Go's `strings` package that the handler calls
  (`TrimSuffix`, `EqualFold`) are embedded from the standard library, with
  the UTF-8 decoder they rely on.  The Unicode case tables behind
  `unicode.SimpleFold` are data of the Go distribution, not of this
  repository: the outcome of the table walk is the parameter `fold`.
* A Go closure `func(r *http.Request) bool` may read and change state outside
  the handler (a flag, a channel): it is a function of the request and of an
  external state `σ`, returning the boolean and the new state.
* `http.ResponseWriter` is an interface: a writer is the sequence of calls it
  has received.
* A request is a value, and a probe is a function that returns: a nil probe,
  a probe that panics, and a closure that writes through the `*http.Request`
  pointer are outside the model.
-/

namespace Healthcheck

/-! ## Go strings -/

/-- A Go string: its bytes, in order. -/
abbrev GoString := List Nat

/-- The bytes of an ASCII literal. -/
def str (s : String) : GoString := s.toList.map Char.toNat

/-- Go `strings.HasSuffix`: `len(s) >= len(suffix) && s[len(s)-len(suffix):] == suffix`. -/
def HasSuffix (s suffix : GoString) : Bool :=
  decide (suffix.length ≤ s.length) && decide (s.drop (s.length - suffix.length) = suffix)

/-- Go `strings.TrimSuffix`: `s` without the trailing `suffix`, or `s` itself
when it does not end in `suffix`. -/
def TrimSuffix (s suffix : GoString) : GoString :=
  if HasSuffix s suffix then s.take (s.length - suffix.length) else s

/-! ## UTF-8 decoding (Go package `unicode/utf8`) -/

/-- The rune `utf8.RuneError`, U+FFFD. -/
def RuneError : Nat := 0xFFFD

/-- Bytes below `utf8.RuneSelf` are runes of one byte. -/
def RuneSelf : Nat := 0x80

/-- Table `first` of `unicode/utf8`: information about the first byte of an
encoding (`0xF0` ASCII, `0xF1` invalid, else accept-range index in the high
nibble and size in the low one). -/
def first (b : Nat) : Nat :=
  if b < 0x80 then 0xF0
  else if b < 0xC2 then 0xF1
  else if b < 0xE0 then 0x02
  else if b = 0xE0 then 0x13
  else if b < 0xED then 0x03
  else if b = 0xED then 0x23
  else if b < 0xF0 then 0x03
  else if b = 0xF0 then 0x34
  else if b < 0xF4 then 0x04
  else if b = 0xF4 then 0x44
  else 0xF1

/-- Table `acceptRanges` of `unicode/utf8`: the range of valid second bytes. -/
def acceptRanges (i : Nat) : Nat × Nat :=
  if i = 0 then (0x80, 0xBF)
  else if i = 1 then (0xA0, 0xBF)
  else if i = 2 then (0x80, 0x9F)
  else if i = 3 then (0x90, 0xBF)
  else (0x80, 0x8F)

/-- Go `utf8.DecodeRuneInString`: the first rune of `s` and its width in
bytes; an invalid encoding gives `(RuneError, 1)`, the empty string
`(RuneError, 0)`. -/
def DecodeRuneInString (s : GoString) : Nat × Nat :=
  match s with
  | [] => (RuneError, 0)
  | s0 :: _ =>
    let x := first s0
    if 0xF0 ≤ x then
      -- `mask` is all ones exactly for the invalid bytes (`x = 0xF1`)
      (if x % 2 = 1 then RuneError else s0, 1)
    else
      let sz := x &&& 7
      let accept := acceptRanges (x >>> 4)
      if s.length < sz then (RuneError, 1)
      else
        let s1 := s.getD 1 0
        if s1 < accept.1 ∨ accept.2 < s1 then (RuneError, 1)
        else if sz ≤ 2 then (((s0 &&& 0x1F) <<< 6) ||| (s1 &&& 0x3F), 2)
        else
          let s2 := s.getD 2 0
          if s2 < 0x80 ∨ 0xBF < s2 then (RuneError, 1)
          else if sz ≤ 3 then
            (((s0 &&& 0x0F) <<< 12) ||| ((s1 &&& 0x3F) <<< 6) ||| (s2 &&& 0x3F), 3)
          else
            let s3 := s.getD 3 0
            if s3 < 0x80 ∨ 0xBF < s3 then (RuneError, 1)
            else
              (((s0 &&& 0x07) <<< 18) ||| ((s1 &&& 0x3F) <<< 12) ||| ((s2 &&& 0x3F) <<< 6)
                ||| (s3 &&& 0x3F), 4)

/-- The runes that `for _, r := range s` yields, `skip` bytes into the
encoding of the rune just yielded. -/
def runesFrom : Nat → GoString → List Nat
  | _, [] => []
  | skip + 1, _ :: rest => runesFrom skip rest
  | 0, b :: rest =>
    let d := DecodeRuneInString (b :: rest)
    d.1 :: runesFrom (d.2 - 1) rest

/-- The runes that `for _, r := range s` yields. -/
def runes (s : GoString) : List Nat := runesFrom 0 s

/-! ## `strings.EqualFold` -/

/-- The comparison of two ASCII characters in `strings.EqualFold`: equal, or
the smaller one an upper-case letter and the larger one its lower-case form. -/
def asciiEqualFold (sr tr : Nat) : Bool :=
  if tr = sr then true
  else
    let lo := if tr < sr then tr else sr
    let hi := if tr < sr then sr else tr
    decide (0x41 ≤ lo) && decide (lo ≤ 0x5A) && decide (hi = lo + 0x61 - 0x41)

/-- The comparison of two runes in the Unicode part of `strings.EqualFold`.
`fold lo hi` is the outcome of the general case, the walk
`r := SimpleFold(lo); for r != lo && r < hi { r = SimpleFold(r) }; r == hi`
over the Unicode tables of the Go distribution. -/
def runeEqualFold (fold : Nat → Nat → Bool) (sr tr : Nat) : Bool :=
  if tr = sr then true
  else
    let lo := if tr < sr then tr else sr
    let hi := if tr < sr then sr else tr
    if hi < RuneSelf then
      decide (0x41 ≤ lo) && decide (lo ≤ 0x5A) && decide (hi = lo + 0x61 - 0x41)
    else fold lo hi

/-- The loop after the label `hasUnicode` of `strings.EqualFold`: the runes
of `s` still to compare, and the rest of `t`. -/
def equalFoldRunes (fold : Nat → Nat → Bool) : List Nat → GoString → Bool
  | [], t => t.length == 0
  | sr :: rest, t =>
    if t.length == 0 then false
    else
      let d := if t.headD 0 < RuneSelf then (t.headD 0, 1) else DecodeRuneInString t
      if runeEqualFold fold sr d.1 then equalFoldRunes fold rest (t.drop d.2) else false

/-- Go `strings.EqualFold`: equality of `s` and `t`, read as UTF-8, under
simple Unicode case folding.  The arguments are what is left of the two
strings at index `i` of the ASCII fast path. -/
def EqualFold (fold : Nat → Nat → Bool) : GoString → GoString → Bool
  | sr :: s, tr :: t =>
    if RuneSelf ≤ sr ||| tr then equalFoldRunes fold (runes (sr :: s)) (tr :: t)
    else if asciiEqualFold sr tr then EqualFold fold s t
    else false
  | s, t => s.length == t.length

/-- A fold table with no pair of runes outside ASCII: enough for strings of
ASCII characters, on which `EqualFold` never consults the table
(`EqualFold_ascii`). -/
def asciiFold : Nat → Nat → Bool := fun _ _ => false

/-- Every byte of `s` is an ASCII character. -/
def isASCII (s : GoString) : Bool := s.all (fun b => decide (b < 128))

/-! ## The part of `net/http` the middleware touches -/

/-- Go `url.URL`: the fields of the request URL. -/
structure URL where
  Path : GoString
  RawQuery : GoString
deriving DecidableEq

/-- Go `http.Request`, as far as a handler or a probe can tell requests apart. -/
structure Request where
  Method : GoString
  URL : Healthcheck.URL
  Header : List (GoString × GoString)
deriving DecidableEq

/-- A call on an `http.ResponseWriter`. -/
inductive WriterCall where
  | HeaderSet (key value : GoString)
  | WriteHeader (statusCode : Nat)
  | Write (b : GoString)
deriving DecidableEq

/-- An `http.ResponseWriter`: the calls it has received, oldest first. -/
abbrev ResponseWriter := List WriterCall

/-- Go `http.Handler`: `ServeHTTP(w, r)`, run in the external state. -/
abbrev Handler (σ : Type) := ResponseWriter → Request → σ → ResponseWriter × σ

/-- Go `http.MethodGet`. -/
def MethodGet : GoString := str "GET"

/-- Go `http.MethodHead`. -/
def MethodHead : GoString := str "HEAD"

/-- Go `http.StatusOK`. -/
def StatusOK : Nat := 200

/-- Go `http.StatusServiceUnavailable`. -/
def StatusServiceUnavailable : Nat := 503

/-! ## config.go -/

/-- Default liveness endpoint. -/
def DefaultLivenessEndpoint : GoString := str "/livez"

/-- Default readiness endpoint. -/
def DefaultReadinessEndpoint : GoString := str "/readyz"

/-- Default startup endpoint. -/
def DefaultStartupEndpoint : GoString := str "/startupz"

/-- Type `HealthChecker` of healthchecker.go: `func(r *http.Request) bool`. -/
abbrev HealthChecker (σ : Type) := Request → σ → Bool × σ

/-- Type `Endpoint`: a health check path and its probe. -/
structure Endpoint (σ : Type) where
  Path : GoString
  Probe : HealthChecker σ

/-- Type `config`: `Next` is `none` for Go's `nil`. -/
structure config (σ : Type) where
  Next : Option (Request → σ → Bool × σ)
  Endpoints : List (Endpoint σ)

/-- Type `configFunc`: `func(*config)`, the configuration after the call. -/
abbrev configFunc (σ : Type) := config σ → config σ

/-- The probe `defaultProbe`: always true. -/
def defaultProbe {σ : Type} : HealthChecker σ := fun _ s => (true, s)

/-- Option `WithEndpointDefaultProbe`. -/
def WithEndpointDefaultProbe {σ : Type} (path : GoString) : configFunc σ :=
  fun c => { c with Endpoints := c.Endpoints ++ [{ Path := path, Probe := defaultProbe }] }

/-- Option `WithEndpoint`. -/
def WithEndpoint {σ : Type} (path : GoString) (probe : HealthChecker σ) : configFunc σ :=
  fun c => { c with Endpoints := c.Endpoints ++ [{ Path := path, Probe := probe }] }

/-- Option `WithNext`. -/
def WithNext {σ : Type} (n : Option (Request → σ → Bool × σ)) : configFunc σ :=
  fun c => { c with Next := n }

/-! ## healthchecker.go -/

/-- Lines 15-18 of `NewHealthChecker`: the options applied in order to the
zero configuration. -/
def applyConfigFuncs {σ : Type} (configFuncs : List (configFunc σ)) : config σ :=
  configFuncs.foldl (fun cfg configFunc => configFunc cfg) { Next := none, Endpoints := [] }

/-- Lines 20-26 of `NewHealthChecker`: the three default endpoints when no
endpoint is configured. -/
def injectDefaults {σ : Type} (cfg : config σ) : config σ :=
  if cfg.Endpoints.length = 0 then
    { cfg with Endpoints :=
        [ { Path := DefaultLivenessEndpoint, Probe := defaultProbe },
          { Path := DefaultReadinessEndpoint, Probe := defaultProbe },
          { Path := DefaultStartupEndpoint, Probe := defaultProbe } ] }
  else cfg

/-- The configuration `cfg` that the handler of `NewHealthChecker` closes over. -/
def buildConfig {σ : Type} (configFuncs : List (configFunc σ)) : config σ :=
  injectDefaults (applyConfigFuncs configFuncs)

/-- The condition `cfg.Next != nil && cfg.Next(r)` of line 32: its value and
the state after it. -/
def evalNext {σ : Type} (cfg : config σ) (r : Request) (s : σ) : Bool × σ :=
  match cfg.Next with
  | none => (false, s)
  | some n => n r s

/-- Lines 46-65 of `fn`: the loop over the endpoints still to scan, then the
call of the next handler. -/
def serveEndpoints {σ : Type} (fold : Nat → Nat → Bool) (trimmedPath : GoString)
    (next : Handler σ) (w : ResponseWriter) (r : Request) : List (Endpoint σ) → σ → ResponseWriter × σ
  | [], s => next w r s
  | endpoint :: rest, s =>
    if !EqualFold fold trimmedPath endpoint.Path then
      serveEndpoints fold trimmedPath next w r rest s
    else
      let w1 := w ++ [WriterCall.HeaderSet (str "Content-Type") (str "text/plain")]
      let p := endpoint.Probe r s
      if p.1 then (w1 ++ [WriterCall.WriteHeader StatusOK], p.2)
      else (w1 ++ [WriterCall.WriteHeader StatusServiceUnavailable], p.2)

/-- The handler `fn` of `NewHealthChecker` (lines 29-66). -/
def fn {σ : Type} (fold : Nat → Nat → Bool) (cfg : config σ) (next : Handler σ) : Handler σ :=
  fun w r s =>
    let b := evalNext cfg r s
    if b.1 then next w r b.2
    else if r.Method ≠ MethodGet ∧ r.Method ≠ MethodHead then next w r b.2
    else
      let trimmedPath := TrimSuffix r.URL.Path (str "/")
      serveEndpoints fold trimmedPath next w r cfg.Endpoints b.2

/-- The middleware `NewHealthChecker(configFuncs...)`. -/
def NewHealthChecker {σ : Type} (fold : Nat → Nat → Bool) (configFuncs : List (configFunc σ)) :
    Handler σ → Handler σ :=
  fun next => fn fold (buildConfig configFuncs) next

/-! ## Requests and handlers used in the examples -/

/-- A request with the given method and path, no query and no header. -/
def request (method path : String) : Request :=
  { Method := str method, URL := { Path := str path, RawQuery := [] }, Header := [] }

/-- A next handler that answers `404 Not Found`, as the router of the tests
does for a path without a route. -/
def notFound {σ : Type} : Handler σ :=
  fun w _ s => (w ++ [WriterCall.WriteHeader 404, WriterCall.Write (str "404 page not found\n")], s)

/-- What the handler writes when it answers with `statusCode`. -/
def answer (statusCode : Nat) : ResponseWriter :=
  [WriterCall.HeaderSet (str "Content-Type") (str "text/plain"), WriterCall.WriteHeader statusCode]

/-- Probe of the examples that answers false on every request. -/
def unhealthy {σ : Type} : HealthChecker σ := fun _ s => (false, s)

/-- The bypass predicate of `Test_HealthCheck_Next`: true on every request. -/
def always {σ : Type} : Request → σ → Bool × σ := fun _ s => (true, s)

/-! ## The options a caller can write

`configFunc` and `config` are unexported: outside the package an option is
one of the three constructors applied to its arguments. -/

/-- An option as the caller writes it. -/
inductive ConfigOption (σ : Type) where
  | withEndpointDefaultProbe (path : GoString)
  | withEndpoint (path : GoString) (probe : HealthChecker σ)
  | withNext (n : Option (Request → σ → Bool × σ))

/-- The `configFunc` an option stands for. -/
def ConfigOption.apply {σ : Type} : ConfigOption σ → configFunc σ
  | .withEndpointDefaultProbe path => WithEndpointDefaultProbe path
  | .withEndpoint path probe => WithEndpoint path probe
  | .withNext n => WithNext n

/-- The (path, probe) pair an endpoint option names; none for `WithNext`. -/
def ConfigOption.added {σ : Type} : ConfigOption σ → Option (Endpoint σ)
  | .withEndpointDefaultProbe path => some { Path := path, Probe := defaultProbe }
  | .withEndpoint path probe => some { Path := path, Probe := probe }
  | .withNext _ => none

/-- The (path, probe) pairs of the endpoint options of a sequence, in the
order the options are given. -/
def addedEndpoints {σ : Type} (opts : List (ConfigOption σ)) : List (Endpoint σ) :=
  opts.filterMap ConfigOption.added

/-- The three default endpoints of the specification, each with the
always-healthy probe. -/
def defaultEndpoints {σ : Type} : List (Endpoint σ) :=
  [ { Path := str "/livez", Probe := defaultProbe },
    { Path := str "/readyz", Probe := defaultProbe },
    { Path := str "/startupz", Probe := defaultProbe } ]

/-! ## Vocabulary of the specification -/

/-- Step 4 of the specification: the first endpoint, in configured order,
whose path equals the normalized request path under case-insensitive
comparison. -/
def firstMatch {σ : Type} (fold : Nat → Nat → Bool) (trimmedPath : GoString) :
    List (Endpoint σ) → Option (Endpoint σ)
  | [] => none
  | e :: rest => if EqualFold fold trimmedPath e.Path then some e else firstMatch fold trimmedPath rest

/-- The handler answers the request itself: whatever the next handler is, it
sets `Content-Type: text/plain` on `w`, writes the status `statusCode`, writes
nothing else and leaves the external state `s1`. -/
def Answers {σ : Type} (h : Handler σ → Handler σ) (w : ResponseWriter) (r : Request) (s : σ)
    (statusCode : Nat) (s1 : σ) : Prop :=
  ∀ next : Handler σ, h next w r s = (w ++ answer statusCode, s1)

/-- The handler delegates the request: whatever the next handler is, the
outcome is that of one call `next.ServeHTTP(w, r)`, made in the state `s1`
with the writer and the request it received. -/
def Delegates {σ : Type} (h : Handler σ → Handler σ) (w : ResponseWriter) (r : Request) (s : σ)
    (s1 : σ) : Prop :=
  ∀ next : Handler σ, h next w r s = next w r s1

/-- Two bytes that are equal or the two cases of one ASCII letter. -/
def sameLetter (a b : Nat) : Bool :=
  a == b || (decide (0x41 ≤ a) && decide (a ≤ 0x5A) && b == a + 0x20)
    || (decide (0x41 ≤ b) && decide (b ≤ 0x5A) && a == b + 0x20)

/-- The string `q` is `p` written in another letter case: same length, and
byte by byte equal up to the case of ASCII letters. -/
def caseVariant : GoString → GoString → Bool
  | [], [] => true
  | a :: q, b :: p => sameLetter a b && caseVariant q p
  | _, _ => false

/-- The request `r` with its URL path replaced by `path`. -/
def withPath (r : Request) (path : GoString) : Request :=
  { r with URL := { r.URL with Path := path } }

/-- Property of the Unicode tables: the folding relation on runes they induce
is transitive (the runes that fold together form classes). -/
def FoldTransitive (fold : Nat → Nat → Bool) : Prop :=
  ∀ a b c : Nat, runeEqualFold fold a b = true → runeEqualFold fold b c = true →
    runeEqualFold fold a c = true

/-- The interception condition of the specification (steps 1, 2 and 4): the
bypass predicate is nil or returns false, the method is GET or HEAD, and some
configured endpoint's path equals the request path with one trailing "/"
stripped under case-insensitive comparison. -/
def Intercepts {σ : Type} (fold : Nat → Nat → Bool) (cfg : config σ) (r : Request) (s : σ) : Prop :=
  (cfg.Next = none ∨ ∃ n, cfg.Next = some n ∧ (n r s).1 = false)
    ∧ (r.Method = str "GET" ∨ r.Method = str "HEAD")
    ∧ ∃ e ∈ cfg.Endpoints, EqualFold fold (TrimSuffix r.URL.Path (str "/")) e.Path = true

/-- Probe of the examples that reads the request: healthy when the request
path ends in "/". -/
def slashProbe {σ : Type} : HealthChecker σ := fun r s => (HasSuffix r.URL.Path (str "/"), s)

/-- Next handler of the examples that writes the path of the request it
receives. -/
def echoPath {σ : Type} : Handler σ := fun w r s => (w ++ [WriterCall.Write r.URL.Path], s)

/-- Property of the Unicode tables: the rune "/" folds with no other rune. -/
def SlashFoldsAlone (fold : Nat → Nat → Bool) : Prop :=
  ∀ hi : Nat, fold 47 hi = false

/-- The position, in configured order, of the first endpoint whose path
equals the normalized request path under case-insensitive comparison. -/
def matchIndex {σ : Type} (fold : Nat → Nat → Bool) (trimmedPath : GoString) :
    List (Endpoint σ) → Option Nat
  | [] => none
  | e :: rest =>
    if EqualFold fold trimmedPath e.Path then some 0
    else (matchIndex fold trimmedPath rest).map (fun k => k + 1)

/-- The record of the probe invocations: the position of the endpoint whose
probe is called and the request it is called with, oldest first. -/
abbrev ProbeLog := List (Nat × Request)

/-- The probe `p` of the endpoint at position `i`, recording each of its
invocations. -/
def logProbe {σ : Type} (i : Nat) (p : HealthChecker σ) : HealthChecker (σ × ProbeLog) :=
  fun r st => ((p r st.1).1, ((p r st.1).2, st.2 ++ [(i, r)]))

/-- The endpoints from position `i` on, with recording probes. -/
def logEndpoints {σ : Type} : Nat → List (Endpoint σ) → List (Endpoint (σ × ProbeLog))
  | _, [] => []
  | i, e :: rest => { Path := e.Path, Probe := logProbe i e.Probe } :: logEndpoints (i + 1) rest

/-- A bypass predicate run beside the record, which it leaves alone. -/
def liftPred {σ : Type} (n : Request → σ → Bool × σ) :
    Request → σ × ProbeLog → Bool × (σ × ProbeLog) :=
  fun r st => ((n r st.1).1, ((n r st.1).2, st.2))

/-- The configuration `cfg` with recording probes. -/
def logConfig {σ : Type} (cfg : config σ) : config (σ × ProbeLog) :=
  { Next := cfg.Next.map liftPred, Endpoints := logEndpoints 0 cfg.Endpoints }

/-- A next handler run beside the record, which it leaves alone. -/
def liftHandler {σ : Type} (next : Handler σ) : Handler (σ × ProbeLog) :=
  fun w r st => ((next w r st.1).1, ((next w r st.1).2, st.2))

/-- The probe of `Test_HealthCheck_Custom`: the external state is the number
of values waiting in the channel `c1`; the probe takes one and is healthy
when there is one, and is unhealthy otherwise. -/
def channelProbe : HealthChecker Nat :=
  fun _ n => if n = 0 then (false, 0) else (true, n - 1)

/-- A bypass predicate that returns false and does nothing else. -/
def never {σ : Type} : Request → σ → Bool × σ := fun _ s => (false, s)

/-- The argument of a `WithNext` option; none for an endpoint option. -/
def ConfigOption.nextArg {σ : Type} : ConfigOption σ → Option (Option (Request → σ → Bool × σ))
  | .withNext n => some n
  | _ => none

/-- The argument of the last `WithNext` option of a sequence; nil when the
sequence has no `WithNext` option. -/
def lastNext {σ : Type} (opts : List (ConfigOption σ)) : Option (Request → σ → Bool × σ) :=
  (opts.filterMap ConfigOption.nextArg).getLastD none

/-- A fold table holding the one pair of the Unicode tables that the
examples use: "É" (U+00C9) folds with "é" (U+00E9). -/
def acuteFold : Nat → Nat → Bool := fun lo hi => lo == 0xC9 && hi == 0xE9

/-! ## Facts about `EqualFold` -/

theorem lt_of_lor_lt (a b : Nat) (h : a ||| b < 128) : a < 128 ∧ b < 128 := by
  have key : ∀ x y : Nat, x ||| y < 128 → x < 128 := by
    intro x y hxy
    by_contra hx
    have hx1 : x ≥ 2 ^ 7 := by omega
    obtain ⟨i, hi, hbit⟩ := Nat.ge_two_pow_implies_high_bit_true hx1
    have hor : (x ||| y).testBit i = true := by simp [hbit]
    have hge := Nat.testBit_implies_ge hor
    have hpow : 2 ^ 7 ≤ 2 ^ i := Nat.pow_le_pow_right (by decide) hi
    omega
  exact ⟨key a b h, key b a (by rwa [Nat.or_comm])⟩

theorem acceptRanges_lo (i : Nat) : 128 ≤ (acceptRanges i).1 := by
  unfold acceptRanges
  split_ifs <;> simp

theorem decode_size_pos (b : Nat) (rest : GoString) : 1 ≤ (DecodeRuneInString (b :: rest)).2 := by
  simp only [DecodeRuneInString]
  split_ifs <;> simp

theorem decode_ascii (b : Nat) (rest : GoString) (h : b < 128) :
    DecodeRuneInString (b :: rest) = (b, 1) := by
  simp [DecodeRuneInString, first, h]

theorem runesFrom_drop (k : Nat) (l : GoString) : runesFrom k l = runes (l.drop k) := by
  induction l generalizing k with
  | nil => simp [runes, runesFrom]
  | cons b rest ih =>
    cases k with
    | zero => simp [runes]
    | succ k => simp [runesFrom, ih]

theorem runes_cons (b : Nat) (rest : GoString) :
    runes (b :: rest) = (DecodeRuneInString (b :: rest)).1
      :: runes ((b :: rest).drop (DecodeRuneInString (b :: rest)).2) := by
  have hpos := decode_size_pos b rest
  obtain ⟨n, hn⟩ : ∃ n, (DecodeRuneInString (b :: rest)).2 = n + 1 := ⟨_, (Nat.sub_add_cancel hpos).symm⟩
  rw [hn]
  simp only [runes, runesFrom, hn, Nat.add_sub_cancel, List.drop_succ_cons]
  rw [runesFrom_drop]
  rfl

theorem runes_nil : runes [] = [] := rfl

theorem runes_eq_nil_iff (s : GoString) : runes s = [] ↔ s = [] := by
  cases s with
  | nil => simp [runes_nil]
  | cons b rest => simp [runes_cons]

theorem runes_cons_ascii (b : Nat) (rest : GoString) (h : b < 128) :
    runes (b :: rest) = b :: runes rest := by
  rw [runes_cons, decode_ascii b rest h]
  rfl

/-- The loop after `hasUnicode` compares the runes of `s` with the runes of
`t`, pair by pair. -/
theorem equalFoldRunes_iff (fold : Nat → Nat → Bool) (rs : List Nat) (t : GoString) :
    equalFoldRunes fold rs t = true ↔
      List.Forall₂ (fun a b => runeEqualFold fold a b = true) rs (runes t) := by
  induction rs generalizing t with
  | nil =>
    cases t with
    | nil => simp [equalFoldRunes, runes_nil]
    | cons b rest => simp [equalFoldRunes, runes_cons]
  | cons sr rest ih =>
    cases t with
    | nil => simp [equalFoldRunes, runes_nil]
    | cons tb tt =>
      have hd : (if (tb :: tt).headD 0 < RuneSelf then ((tb :: tt).headD 0, 1)
          else DecodeRuneInString (tb :: tt)) = DecodeRuneInString (tb :: tt) := by
        by_cases h : tb < 128
        · simp [RuneSelf, h, decode_ascii tb tt h]
        · simp [RuneSelf, h]
      rw [runes_cons tb tt, List.forall₂_cons]
      simp only [equalFoldRunes, hd]
      rw [← ih]
      simp

theorem asciiEqualFold_eq (fold : Nat → Nat → Bool) (a b : Nat) (ha : a < 128) (hb : b < 128) :
    asciiEqualFold a b = runeEqualFold fold a b := by
  have h : (if b < a then a else b) < RuneSelf := by
    unfold RuneSelf
    split_ifs <;> omega
  simp only [asciiEqualFold, runeEqualFold, h, if_true]

/-- The function `strings.EqualFold` compares the runes of `s` with the
runes of `t`, pair by pair. -/
theorem EqualFold_iff (fold : Nat → Nat → Bool) (s t : GoString) :
    EqualFold fold s t = true ↔
      List.Forall₂ (fun a b => runeEqualFold fold a b = true) (runes s) (runes t) := by
  induction s generalizing t with
  | nil =>
    cases t with
    | nil => simp [EqualFold, runes_nil]
    | cons b rest => simp [EqualFold, runes_nil, runes_cons]
  | cons sb ss ih =>
    cases t with
    | nil => simp [EqualFold, runes_nil, runes_cons]
    | cons tb tt =>
      by_cases hu : RuneSelf ≤ sb ||| tb
      · simp only [EqualFold, hu, if_true]
        exact equalFoldRunes_iff fold _ _
      · have hlt : sb ||| tb < 128 := by
          unfold RuneSelf at hu
          omega
        obtain ⟨hs, ht⟩ := lt_of_lor_lt sb tb hlt
        simp only [EqualFold, hu, if_false]
        rw [runes_cons_ascii sb ss hs, runes_cons_ascii tb tt ht, List.forall₂_cons, ← ih,
          asciiEqualFold_eq fold sb tb hs ht]
        by_cases hr : runeEqualFold fold sb tb = true <;> simp [hr]

theorem runeEqualFold_comm (fold : Nat → Nat → Bool) (a b : Nat) :
    runeEqualFold fold a b = runeEqualFold fold b a := by
  unfold runeEqualFold
  by_cases hab : a = b
  · subst hab; rfl
  · have hba : ¬ b = a := fun h => hab h.symm
    rcases Nat.lt_or_gt_of_ne hab with h | h
    · have h2 : ¬ b < a := by omega
      simp [hab, hba, h, h2]
    · have h2 : ¬ a < b := by omega
      simp [hab, hba, h, h2]

theorem EqualFold_comm (fold : Nat → Nat → Bool) (s t : GoString) :
    EqualFold fold s t = true ↔ EqualFold fold t s = true := by
  rw [EqualFold_iff, EqualFold_iff]
  constructor <;> intro h
  · apply List.Forall₂.flip
    exact h.imp (fun a b hab => by simpa [flip, runeEqualFold_comm fold b a] using hab)
  · apply List.Forall₂.flip
    exact h.imp (fun a b hab => by simpa [flip, runeEqualFold_comm fold b a] using hab)

theorem forall₂_trans_of {R : Nat → Nat → Prop} (hR : ∀ a b c, R a b → R b c → R a c) :
    ∀ l₁ l₂ l₃ : List Nat, List.Forall₂ R l₁ l₂ → List.Forall₂ R l₂ l₃ → List.Forall₂ R l₁ l₃ := by
  intro l₁
  induction l₁ with
  | nil =>
    intro l₂ l₃ h12 h23
    rw [List.forall₂_nil_left_iff] at h12
    subst h12
    exact h23
  | cons a l ih =>
    intro l₂ l₃ h12 h23
    cases h12 with
    | cons hab hl =>
      cases h23 with
      | cons hbc hl2 => exact List.Forall₂.cons (hR _ _ _ hab hbc) (ih _ _ hl hl2)

/-- When the fold table is transitive on runes, `EqualFold` is transitive on
strings. -/
theorem EqualFold_trans (fold : Nat → Nat → Bool) (hfold : FoldTransitive fold) (s t u : GoString)
    (hst : EqualFold fold s t = true) (htu : EqualFold fold t u = true) :
    EqualFold fold s u = true := by
  rw [EqualFold_iff] at *
  exact forall₂_trans_of (fun a b c => hfold a b c) _ _ _ hst htu

/-- On ASCII strings `EqualFold` does not depend on the fold table. -/
theorem EqualFold_ascii (fold fold1 : Nat → Nat → Bool) (s t : GoString)
    (hs : isASCII s = true) (ht : isASCII t = true) :
    EqualFold fold s t = EqualFold fold1 s t := by
  induction s generalizing t with
  | nil => cases t <;> simp [EqualFold]
  | cons sb ss ih =>
    cases t with
    | nil => simp [EqualFold]
    | cons tb tt =>
      simp only [isASCII, List.all_cons, Bool.and_eq_true, decide_eq_true_eq] at hs ht
      have hlt : sb ||| tb < 2 ^ 7 := Nat.or_lt_two_pow (by omega) (by omega)
      have hu : ¬ RuneSelf ≤ sb ||| tb := by
        unfold RuneSelf
        omega
      simp only [EqualFold, hu, if_false]
      rw [ih tt hs.2 ht.2]

theorem isASCII_TrimSuffix (p suffix : GoString) (h : isASCII p = true) :
    isASCII (TrimSuffix p suffix) = true := by
  unfold TrimSuffix
  split
  · simp only [isASCII, List.all_eq_true] at h ⊢
    intro b hb
    exact h b (List.mem_of_mem_take hb)
  · exact h

/-! ## The decoder and the last byte -/

theorem first_spec (b : Nat) :
    (b < 0x80 ∧ first b = 0xF0) ∨ (0x80 ≤ b ∧ first b = 0xF1)
      ∨ (0xC2 ≤ b ∧ b < 0xE0 ∧ first b = 0x02)
      ∨ (b = 0xE0 ∧ first b = 0x13)
      ∨ (0xE1 ≤ b ∧ b < 0xF0 ∧ first b = 0x03)
      ∨ (b = 0xED ∧ first b = 0x23)
      ∨ (b = 0xF0 ∧ first b = 0x34)
      ∨ (0xF1 ≤ b ∧ b < 0xF4 ∧ first b = 0x04)
      ∨ (b = 0xF4 ∧ first b = 0x44) := by
  unfold first
  split_ifs <;> simp <;> omega

/-- The decoder on a first byte that starts an encoding of `sz` bytes. -/
theorem decode_of_first (b : Nat) (rest : GoString) (x sz lo hi : Nat) (hx : first b = x)
    (hlt : x < 0xF0) (hsz : x &&& 7 = sz) (hacc : acceptRanges (x >>> 4) = (lo, hi)) :
    DecodeRuneInString (b :: rest) =
      if rest.length + 1 < sz then (RuneError, 1)
      else if rest.getD 0 0 < lo ∨ hi < rest.getD 0 0 then (RuneError, 1)
      else if sz ≤ 2 then (((b &&& 0x1F) <<< 6) ||| (rest.getD 0 0 &&& 0x3F), 2)
      else if rest.getD 1 0 < 0x80 ∨ 0xBF < rest.getD 1 0 then (RuneError, 1)
      else if sz ≤ 3 then
        (((b &&& 0x0F) <<< 12) ||| ((rest.getD 0 0 &&& 0x3F) <<< 6) ||| (rest.getD 1 0 &&& 0x3F), 3)
      else if rest.getD 2 0 < 0x80 ∨ 0xBF < rest.getD 2 0 then (RuneError, 1)
      else
        (((b &&& 0x07) <<< 18) ||| ((rest.getD 0 0 &&& 0x3F) <<< 12)
          ||| ((rest.getD 1 0 &&& 0x3F) <<< 6) ||| (rest.getD 2 0 &&& 0x3F), 4) := by
  have hnot : ¬ 0xF0 ≤ x := by omega
  simp only [DecodeRuneInString, hx, hsz, hacc, List.length_cons, List.getD_cons_succ, hnot, if_false]

theorem decode_of_invalid (b : Nat) (rest : GoString) (hx : first b = 0xF1) :
    DecodeRuneInString (b :: rest) = (RuneError, 1) := by
  simp [DecodeRuneInString, hx]

/-- The decoder by the class of the first byte: ASCII, invalid, or the start
of an encoding of `sz` bytes with second byte in `lo..hi`. -/
theorem decode_classes (b : Nat) :
    (b < 0x80 ∧ ∀ rest : GoString, DecodeRuneInString (b :: rest) = (b, 1))
      ∨ (0x80 ≤ b ∧ ∀ rest : GoString, DecodeRuneInString (b :: rest) = (RuneError, 1))
      ∨ ∃ sz lo hi, 0x80 ≤ b ∧ 2 ≤ sz ∧ sz ≤ 4 ∧ 0x80 ≤ lo ∧ hi ≤ 0xBF ∧
          (sz = 2 → 128 ≤ (b &&& 0x1F) <<< 6) ∧
          (sz = 3 → 128 ≤ (b &&& 0x0F) <<< 12 ∨ 0xA0 ≤ lo) ∧
          (sz = 4 → 128 ≤ (b &&& 0x07) <<< 18 ∨ 0x90 ≤ lo) ∧
          ∀ rest : GoString, DecodeRuneInString (b :: rest) =
            if rest.length + 1 < sz then (RuneError, 1)
            else if rest.getD 0 0 < lo ∨ hi < rest.getD 0 0 then (RuneError, 1)
            else if sz ≤ 2 then (((b &&& 0x1F) <<< 6) ||| (rest.getD 0 0 &&& 0x3F), 2)
            else if rest.getD 1 0 < 0x80 ∨ 0xBF < rest.getD 1 0 then (RuneError, 1)
            else if sz ≤ 3 then
              (((b &&& 0x0F) <<< 12) ||| ((rest.getD 0 0 &&& 0x3F) <<< 6)
                ||| (rest.getD 1 0 &&& 0x3F), 3)
            else if rest.getD 2 0 < 0x80 ∨ 0xBF < rest.getD 2 0 then (RuneError, 1)
            else
              (((b &&& 0x07) <<< 18) ||| ((rest.getD 0 0 &&& 0x3F) <<< 12)
                ||| ((rest.getD 1 0 &&& 0x3F) <<< 6) ||| (rest.getD 2 0 &&& 0x3F), 4) := by
  rcases first_spec b with h | h | h | h | h | h | h | h | h
  · exact Or.inl ⟨h.1, fun rest => decode_ascii b rest h.1⟩
  · exact Or.inr (Or.inl ⟨h.1, fun rest => decode_of_invalid b rest h.2⟩)
  · refine Or.inr (Or.inr ⟨2, 0x80, 0xBF, by omega, by omega, by omega, by omega, by omega, ?_, ?_, ?_,
      fun rest => decode_of_first b rest 0x02 2 0x80 0xBF h.2.2 (by decide) (by decide) (by decide)⟩)
    · intro _
      obtain ⟨h1, h2, _⟩ := h
      interval_cases b <;> decide
    · intro hc; omega
    · intro hc; omega
  · refine Or.inr (Or.inr ⟨3, 0xA0, 0xBF, by omega, by omega, by omega, by omega, by omega, ?_, ?_, ?_,
      fun rest => decode_of_first b rest 0x13 3 0xA0 0xBF h.2 (by decide) (by decide) (by decide)⟩)
    · intro hc; omega
    · intro _; exact Or.inr (by omega)
    · intro hc; omega
  · refine Or.inr (Or.inr ⟨3, 0x80, 0xBF, by omega, by omega, by omega, by omega, by omega, ?_, ?_, ?_,
      fun rest => decode_of_first b rest 0x03 3 0x80 0xBF h.2.2 (by decide) (by decide) (by decide)⟩)
    · intro hc; omega
    · intro _
      left
      obtain ⟨h1, h2, _⟩ := h
      interval_cases b <;> decide
    · intro hc; omega
  · refine Or.inr (Or.inr ⟨3, 0x80, 0x9F, by omega, by omega, by omega, by omega, by omega, ?_, ?_, ?_,
      fun rest => decode_of_first b rest 0x23 3 0x80 0x9F h.2 (by decide) (by decide) (by decide)⟩)
    · intro hc; omega
    · intro _
      left
      rw [h.1]
      decide
    · intro hc; omega
  · refine Or.inr (Or.inr ⟨4, 0x90, 0xBF, by omega, by omega, by omega, by omega, by omega, ?_, ?_, ?_,
      fun rest => decode_of_first b rest 0x34 4 0x90 0xBF h.2 (by decide) (by decide) (by decide)⟩)
    · intro hc; omega
    · intro hc; omega
    · intro _; exact Or.inr (by omega)
  · refine Or.inr (Or.inr ⟨4, 0x80, 0xBF, by omega, by omega, by omega, by omega, by omega, ?_, ?_, ?_,
      fun rest => decode_of_first b rest 0x04 4 0x80 0xBF h.2.2 (by decide) (by decide) (by decide)⟩)
    · intro hc; omega
    · intro hc; omega
    · intro _
      left
      obtain ⟨h1, h2, _⟩ := h
      interval_cases b <;> decide
  · refine Or.inr (Or.inr ⟨4, 0x80, 0x8F, by omega, by omega, by omega, by omega, by omega, ?_, ?_, ?_,
      fun rest => decode_of_first b rest 0x44 4 0x80 0x8F h.2 (by decide) (by decide) (by decide)⟩)
    · intro hc; omega
    · intro hc; omega
    · intro _
      left
      rw [h.1]
      decide

theorem decode_size_le (b : Nat) (rest : GoString) :
    (DecodeRuneInString (b :: rest)).2 ≤ rest.length + 1 := by
  rcases decode_classes b with ⟨_, h⟩ | ⟨_, h⟩ | ⟨sz, lo, hi, _, h2, h4, _, _, _, _, _, h⟩
  · rw [h]; simp
  · rw [h]; simp
  · rw [h]
    split_ifs <;> simp <;> omega

theorem le_lor_left (a b : Nat) (h : 128 ≤ a) : 128 ≤ a ||| b := by
  by_contra hc
  have := (lt_of_lor_lt a b (by omega)).1
  omega

theorem le_lor_right (a b : Nat) (h : 128 ≤ b) : 128 ≤ a ||| b := by
  by_contra hc
  have := (lt_of_lor_lt a b (by omega)).2
  omega

theorem land_3F_ge6 (b : Nat) (h1 : 0xA0 ≤ b) (h2 : b ≤ 0xBF) : 128 ≤ (b &&& 0x3F) <<< 6 := by
  interval_cases b <;> decide

theorem land_3F_ge12 (b : Nat) (h1 : 0x90 ≤ b) (h2 : b ≤ 0xBF) : 128 ≤ (b &&& 0x3F) <<< 12 := by
  interval_cases b <;> decide

/-- A first byte that is not ASCII never decodes to an ASCII rune. -/
theorem decode_rune_ge (b : Nat) (rest : GoString) (hb : 128 ≤ b) :
    128 ≤ (DecodeRuneInString (b :: rest)).1 := by
  rcases decode_classes b with ⟨hlt, _⟩ | ⟨_, h⟩ | ⟨sz, lo, hi, _, h2, h4, hlo, hhi, c2, c3, c4, h⟩
  · omega
  · rw [h]; decide
  · rw [h]
    split_ifs with k1 k2 k3 k4 k5 k6
    · decide
    · decide
    · exact le_lor_left _ _ (c2 (by omega))
    · decide
    · rcases c3 (by omega) with c | c
      · exact le_lor_left _ _ (le_lor_left _ _ c)
      · exact le_lor_left _ _ (le_lor_right _ _ (land_3F_ge6 _ (by omega) (by omega)))
    · decide
    · rcases c4 (by omega) with c | c
      · exact le_lor_left _ _ (le_lor_left _ _ (le_lor_left _ _ c))
      · exact le_lor_left _ _ (le_lor_left _ _ (le_lor_right _ _ (land_3F_ge12 _ (by omega) (by omega))))

/-- An ASCII byte appended to a string does not change its first rune. -/
theorem decode_append_ascii (b : Nat) (rest : GoString) (c : Nat) (hc : c < 128) :
    DecodeRuneInString (b :: (rest ++ [c])) = DecodeRuneInString (b :: rest) := by
  rcases decode_classes b with ⟨_, h⟩ | ⟨_, h⟩ | ⟨sz, lo, hi, _, h2, h4, hlo, hhi, _, _, _, h⟩
  · rw [h, h]
  · rw [h, h]
  · rw [h, h]
    match rest with
    | [] => simp; split_ifs <;> first | rfl | omega
    | [x] => simp; split_ifs <;> first | rfl | omega
    | [x, y] => simp; split_ifs <;> first | rfl | omega
    | x :: y :: z :: t => simp; split_ifs <;> first | rfl | omega

theorem runes_append_ascii_aux (c : Nat) (hc : c < 128) (n : Nat) :
    ∀ q : GoString, q.length ≤ n → runes (q ++ [c]) = runes q ++ [c] := by
  induction n with
  | zero =>
    intro q hq
    have : q = [] := List.length_eq_zero.mp (Nat.le_zero.mp hq)
    subst this
    simp [runes_cons_ascii c [] hc, runes_nil]
  | succ n ih =>
    intro q hq
    cases q with
    | nil => simp [runes_cons_ascii c [] hc, runes_nil]
    | cons b rest =>
      have hpos := decode_size_pos b rest
      have hle := decode_size_le b rest
      rw [List.cons_append, runes_cons b (rest ++ [c]), runes_cons b rest,
        decode_append_ascii b rest c hc]
      have hdrop : List.drop (DecodeRuneInString (b :: rest)).2 (b :: (rest ++ [c]))
          = List.drop (DecodeRuneInString (b :: rest)).2 (b :: rest) ++ [c] := by
        rw [← List.cons_append]
        exact List.drop_append_of_le_length (by simpa using hle)
      rw [hdrop, ih _ (by simp only [List.length_drop, List.length_cons] at hq ⊢; omega)]
      simp

/-- An ASCII byte at the end of a string is its last rune. -/
theorem runes_append_ascii (q : GoString) (c : Nat) (hc : c < 128) :
    runes (q ++ [c]) = runes q ++ [c] :=
  runes_append_ascii_aux c hc q.length q (Nat.le_refl _)

theorem runes_last_ascii_aux (n : Nat) :
    ∀ (a : GoString) (l : List Nat) (x : Nat), a.length ≤ n → runes a = l ++ [x] → x < 128 →
      ∃ a1, a = a1 ++ [x] ∧ runes a1 = l := by
  induction n with
  | zero =>
    intro a l x ha hr _
    have : a = [] := List.length_eq_zero.mp (Nat.le_zero.mp ha)
    subst this
    simp [runes_nil] at hr
  | succ n ih =>
    intro a l x ha hr hx
    cases a with
    | nil => simp [runes_nil] at hr
    | cons b rest =>
      have hpos := decode_size_pos b rest
      have hle := decode_size_le b rest
      rw [runes_cons] at hr
      obtain ⟨m, hm⟩ : ∃ m, (DecodeRuneInString (b :: rest)).2 = m + 1 :=
        ⟨_, (Nat.sub_add_cancel hpos).symm⟩
      rw [hm] at hr hle
      simp only [List.drop_succ_cons] at hr
      cases l with
      | nil =>
        simp only [List.nil_append, List.cons.injEq] at hr
        have hb : b < 128 := by
          by_contra hcon
          have := decode_rune_ge b rest (by omega)
          omega
        have hd := decode_ascii b rest hb
        rw [hd] at hm hr
        have hm0 : m = 0 := by simpa using hm.symm
        subst hm0
        have hrest : rest = [] := (runes_eq_nil_iff rest).mp (by simpa using hr.2)
        subst hrest
        exact ⟨[], by simp [hr.1.symm], runes_nil⟩
      | cons y l1 =>
        simp only [List.cons_append, List.cons.injEq] at hr
        obtain ⟨a2, ha2, hr2⟩ := ih (List.drop m rest) l1 x
          (by simp only [List.length_drop, List.length_cons] at ha ⊢; omega) hr.2 hx
        have hrest : rest = (List.take m rest ++ a2) ++ [x] := by
          rw [List.append_assoc, ← ha2, List.take_append_drop]
        refine ⟨b :: (List.take m rest ++ a2), by rw [List.cons_append, ← hrest], ?_⟩
        have hdec : DecodeRuneInString (b :: (List.take m rest ++ a2))
            = DecodeRuneInString (b :: rest) := by
          conv_rhs => rw [hrest]
          exact (decode_append_ascii b _ x hx).symm
        rw [runes_cons, hdec, hm, hr.1]
        simp only [List.drop_succ_cons]
        have hlen : (List.take m rest).length = m := by
          rw [List.length_take]
          omega
        rw [List.drop_append_of_le_length (by omega), List.drop_of_length_le (by omega)]
        simp [hr2]

/-- When the last rune of a string is an ASCII character, it is its last byte. -/
theorem runes_last_ascii (a : GoString) (l : List Nat) (x : Nat) (hr : runes a = l ++ [x])
    (hx : x < 128) : ∃ a1, a = a1 ++ [x] ∧ runes a1 = l :=
  runes_last_ascii_aux a.length a l x (Nat.le_refl _) hr hx

/-! ## Letter case -/

theorem sameLetter_cases (a b : Nat) (h : sameLetter a b = true) :
    a = b ∨ (a < 128 ∧ b < 128) := by
  simp [sameLetter] at h
  omega

theorem sameLetter_refl (a : Nat) : sameLetter a a = true := by
  simp [sameLetter]

theorem sameLetter_runeEqualFold (fold : Nat → Nat → Bool) (a b : Nat) (h : sameLetter a b = true) :
    runeEqualFold fold a b = true := by
  by_cases hab : a = b
  · subst hab
    simp [runeEqualFold]
  · simp [sameLetter, hab] at h
    have hba : ¬ b = a := fun e => hab e.symm
    rcases h with ⟨⟨h1, h2⟩, h3⟩ | ⟨⟨h1, h2⟩, h3⟩
    · have hlt : ¬ b < a := by omega
      have hb : b < 128 := by omega
      simp [runeEqualFold, hba, hlt, RuneSelf, hb]
      omega
    · have hlt : b < a := by omega
      have ha : a < 128 := by omega
      simp [runeEqualFold, hba, hlt, RuneSelf, ha]
      omega

theorem caseVariant_refl (p : GoString) : caseVariant p p = true := by
  induction p with
  | nil => rfl
  | cons a rest ih => simp [caseVariant, sameLetter_refl, ih]

theorem caseVariant_length (q p : GoString) (h : caseVariant q p = true) : q.length = p.length := by
  induction q generalizing p with
  | nil => cases p <;> simp_all [caseVariant]
  | cons a rest ih =>
    cases p with
    | nil => simp [caseVariant] at h
    | cons b rest2 =>
      simp [caseVariant] at h
      simp [ih rest2 h.2]

theorem caseVariant_getD (q p : GoString) (h : caseVariant q p = true) (k : Nat) :
    sameLetter (q.getD k 0) (p.getD k 0) = true := by
  induction q generalizing p k with
  | nil =>
    cases p with
    | nil => simp [sameLetter_refl]
    | cons b rest2 => simp [caseVariant] at h
  | cons a rest ih =>
    cases p with
    | nil => simp [caseVariant] at h
    | cons b rest2 =>
      simp [caseVariant] at h
      cases k with
      | zero => simpa using h.1
      | succ k => simpa using ih rest2 h.2 k

theorem caseVariant_drop (n : Nat) (q p : GoString) (h : caseVariant q p = true) :
    caseVariant (q.drop n) (p.drop n) = true := by
  induction n generalizing q p with
  | zero => simpa using h
  | succ n ih =>
    cases q with
    | nil =>
      cases p with
      | nil => simp [caseVariant]
      | cons b rest2 => simp [caseVariant] at h
    | cons a rest =>
      cases p with
      | nil => simp [caseVariant] at h
      | cons b rest2 =>
        simp [caseVariant] at h
        simpa using ih rest rest2 h.2

/-- The decoder reads the same rune from two strings with the same first
byte, not ASCII, whose later bytes agree wherever one of them is not ASCII. -/
theorem decode_congr (a : Nat) (q p : GoString) (hlen : q.length = p.length)
    (h : ∀ k, q.getD k 0 = p.getD k 0 ∨ (q.getD k 0 < 128 ∧ p.getD k 0 < 128)) :
    DecodeRuneInString (a :: q) = DecodeRuneInString (a :: p) := by
  simp only [DecodeRuneInString, List.length_cons, hlen, List.getD_cons_succ]
  have hlo := acceptRanges_lo (first a >>> 4)
  generalize acceptRanges (first a >>> 4) = acc at hlo ⊢
  have h0 := h 0
  have h1 := h 1
  have h2 := h 2
  generalize q.getD 0 0 = x0 at h0 ⊢
  generalize p.getD 0 0 = y0 at h0 ⊢
  generalize q.getD 1 0 = x1 at h1 ⊢
  generalize p.getD 1 0 = y1 at h1 ⊢
  generalize q.getD 2 0 = x2 at h2 ⊢
  generalize p.getD 2 0 = y2 at h2 ⊢
  rcases h0 with e0 | ⟨l0, m0⟩
  · subst e0
    rcases h1 with e1 | ⟨l1, m1⟩
    · subst e1
      rcases h2 with e2 | ⟨l2, m2⟩
      · subst e2
        rfl
      · have c1 : x2 < 128 ∨ 191 < x2 := Or.inl l2
        have c2 : y2 < 128 ∨ 191 < y2 := Or.inl m2
        simp only [c1, c2, if_true]
    · have c1 : x1 < 128 ∨ 191 < x1 := Or.inl l1
      have c2 : y1 < 128 ∨ 191 < y1 := Or.inl m1
      simp only [c1, c2, if_true]
  · have c1 : x0 < acc.1 ∨ acc.2 < x0 := Or.inl (by omega)
    have c2 : y0 < acc.1 ∨ acc.2 < y0 := Or.inl (by omega)
    simp only [c1, c2, if_true]

theorem caseVariant_decode (a b : Nat) (q p : GoString) (h : caseVariant (a :: q) (b :: p) = true) :
    (DecodeRuneInString (a :: q)).2 = (DecodeRuneInString (b :: p)).2
      ∧ sameLetter (DecodeRuneInString (a :: q)).1 (DecodeRuneInString (b :: p)).1 = true := by
  have hab : sameLetter a b = true := by
    simp [caseVariant] at h
    exact h.1
  have hqp : caseVariant q p = true := by
    simp [caseVariant] at h
    exact h.2
  by_cases ha : a < 128
  · have hb : b < 128 := by
      rcases sameLetter_cases a b hab with e | ⟨_, hb⟩
      · omega
      · exact hb
    rw [decode_ascii a q ha, decode_ascii b p hb]
    exact ⟨rfl, hab⟩
  · have e : a = b := by
      rcases sameLetter_cases a b hab with e | ⟨ha2, _⟩
      · exact e
      · exact absurd ha2 ha
    subst e
    rw [decode_congr a q p (caseVariant_length q p hqp)
      (fun k => sameLetter_cases _ _ (caseVariant_getD q p hqp k))]
    exact ⟨rfl, sameLetter_refl _⟩

theorem caseVariant_runes (fold : Nat → Nat → Bool) (n : Nat) :
    ∀ q p : GoString, q.length ≤ n → caseVariant q p = true →
      List.Forall₂ (fun a b => runeEqualFold fold a b = true) (runes q) (runes p) := by
  induction n with
  | zero =>
    intro q p hn h
    have hq : q = [] := List.length_eq_zero.mp (Nat.le_zero.mp hn)
    subst hq
    cases p with
    | nil => simp [runes_nil]
    | cons b rest2 => simp [caseVariant] at h
  | succ n ih =>
    intro q p hn h
    cases q with
    | nil =>
      cases p with
      | nil => simp [runes_nil]
      | cons b rest2 => simp [caseVariant] at h
    | cons a rest =>
      cases p with
      | nil => simp [caseVariant] at h
      | cons b rest2 =>
        obtain ⟨hsz, hr⟩ := caseVariant_decode a b rest rest2 h
        rw [runes_cons a rest, runes_cons b rest2, List.forall₂_cons]
        refine ⟨sameLetter_runeEqualFold fold _ _ hr, ?_⟩
        rw [← hsz]
        apply ih
        · have hpos := decode_size_pos a rest
          simp only [List.length_drop, List.length_cons] at hn ⊢
          omega
        · exact caseVariant_drop _ _ _ h

/-- A path written in another letter case is equal under `EqualFold`, for
every fold table. -/
theorem EqualFold_of_caseVariant (fold : Nat → Nat → Bool) (q p : GoString)
    (h : caseVariant q p = true) : EqualFold fold q p = true := by
  rw [EqualFold_iff]
  exact caseVariant_runes fold q.length q p (Nat.le_refl _) h

theorem EqualFold_refl (fold : Nat → Nat → Bool) (p : GoString) : EqualFold fold p p = true :=
  EqualFold_of_caseVariant fold p p (caseVariant_refl p)

theorem foldTransitive_asciiFold : FoldTransitive asciiFold := by
  intro a b c hab hbc
  simp only [runeEqualFold, asciiFold, RuneSelf] at *
  split_ifs at hab hbc ⊢ <;> simp_all <;> omega

/-! ## Facts about the handler -/

theorem evalNext_none {σ : Type} (cfg : config σ) (r : Request) (s : σ) (h : cfg.Next = none) :
    evalNext cfg r s = (false, s) := by
  simp [evalNext, h]

theorem evalNext_some {σ : Type} (cfg : config σ) (r : Request) (s : σ)
    (n : Request → σ → Bool × σ) (h : cfg.Next = some n) : evalNext cfg r s = n r s := by
  simp [evalNext, h]

theorem answer_append (w : ResponseWriter) (c : Nat) :
    w ++ [WriterCall.HeaderSet (str "Content-Type") (str "text/plain")] ++ [WriterCall.WriteHeader c]
      = w ++ answer c := by
  simp [answer]

/-- The loop of the handler refines step 4 and 5 of the specification: it
answers with the probe of the first matching endpoint, and calls the next
handler when there is none. -/
theorem serveEndpoints_eq {σ : Type} (fold : Nat → Nat → Bool) (trimmedPath : GoString)
    (next : Handler σ) (w : ResponseWriter) (r : Request) (eps : List (Endpoint σ)) (s : σ) :
    serveEndpoints fold trimmedPath next w r eps s =
      match firstMatch fold trimmedPath eps with
      | none => next w r s
      | some e => (w ++ answer (if (e.Probe r s).1 then 200 else 503), (e.Probe r s).2) := by
  induction eps with
  | nil => rfl
  | cons e rest ih =>
    by_cases h : EqualFold fold trimmedPath e.Path = true
    · by_cases hp : (e.Probe r s).1 = true
      · simp [serveEndpoints, firstMatch, h, hp, answer, StatusOK]
      · simp [serveEndpoints, firstMatch, h, hp, answer, StatusServiceUnavailable]
    · simp [serveEndpoints, firstMatch, h, ih]

theorem firstMatch_append {σ : Type} (fold : Nat → Nat → Bool) (t : GoString)
    (pre : List (Endpoint σ)) (E : Endpoint σ) (post : List (Endpoint σ))
    (hpre : ∀ e ∈ pre, EqualFold fold t e.Path = false) (hE : EqualFold fold t E.Path = true) :
    firstMatch fold t (pre ++ E :: post) = some E := by
  induction pre with
  | nil => simp [firstMatch, hE]
  | cons e rest ih =>
    have h1 : EqualFold fold t e.Path = false := hpre e (List.mem_cons_self _ _)
    have h2 : ∀ x ∈ rest, EqualFold fold t x.Path = false :=
      fun x hx => hpre x (List.mem_cons_of_mem _ hx)
    simp [firstMatch, h1, ih h2]

theorem firstMatch_none_iff {σ : Type} (fold : Nat → Nat → Bool) (t : GoString)
    (eps : List (Endpoint σ)) :
    firstMatch fold t eps = none ↔ ∀ e ∈ eps, EqualFold fold t e.Path = false := by
  induction eps with
  | nil => simp [firstMatch]
  | cons e rest ih =>
    by_cases h : EqualFold fold t e.Path = true
    · simp [firstMatch, h]
    · simp [firstMatch, h, ih]

theorem firstMatch_some_mem {σ : Type} (fold : Nat → Nat → Bool) (t : GoString)
    (eps : List (Endpoint σ)) (e : Endpoint σ) (h : firstMatch fold t eps = some e) :
    e ∈ eps ∧ EqualFold fold t e.Path = true := by
  induction eps with
  | nil => simp [firstMatch] at h
  | cons x rest ih =>
    by_cases hx : EqualFold fold t x.Path = true
    · simp [firstMatch, hx] at h
      subst h
      exact ⟨List.mem_cons_self _ _, hx⟩
    · simp [firstMatch, hx] at h
      exact ⟨List.mem_cons_of_mem _ (ih h).1, (ih h).2⟩

/-- The handler in terms of the specification's steps 1 to 5. -/
theorem fn_eq {σ : Type} (fold : Nat → Nat → Bool) (cfg : config σ) (next : Handler σ)
    (w : ResponseWriter) (r : Request) (s : σ) :
    fn fold cfg next w r s =
      if (evalNext cfg r s).1 = true then next w r (evalNext cfg r s).2
      else if r.Method ≠ MethodGet ∧ r.Method ≠ MethodHead then next w r (evalNext cfg r s).2
      else
        match firstMatch fold (TrimSuffix r.URL.Path (str "/")) cfg.Endpoints with
        | none => next w r (evalNext cfg r s).2
        | some e =>
          (w ++ answer (if (e.Probe r (evalNext cfg r s).2).1 then 200 else 503),
            (e.Probe r (evalNext cfg r s).2).2) := by
  simp only [fn, serveEndpoints_eq]

/-- A GET or HEAD request that is not bypassed is answered by the first
matching endpoint. -/
theorem fn_first_match {σ : Type} (fold : Nat → Nat → Bool) (cfg : config σ)
    (next : Handler σ) (w : ResponseWriter) (r : Request) (s : σ)
    (pre : List (Endpoint σ)) (E : Endpoint σ) (post : List (Endpoint σ))
    (hbypass : (evalNext cfg r s).1 = false)
    (hmethod : r.Method = MethodGet ∨ r.Method = MethodHead)
    (hlist : cfg.Endpoints = pre ++ E :: post)
    (hpre : ∀ e ∈ pre, EqualFold fold (TrimSuffix r.URL.Path (str "/")) e.Path = false)
    (hE : EqualFold fold (TrimSuffix r.URL.Path (str "/")) E.Path = true) :
    fn fold cfg next w r s =
      (w ++ answer (if (E.Probe r (evalNext cfg r s).2).1 then 200 else 503),
        (E.Probe r (evalNext cfg r s).2).2) := by
  have hm : ¬ (r.Method ≠ MethodGet ∧ r.Method ≠ MethodHead) := by
    rcases hmethod with h | h <;> simp [h]
  have hfm := firstMatch_append fold (TrimSuffix r.URL.Path (str "/")) pre E post hpre hE
  rw [← hlist] at hfm
  simp only [fn_eq, hbypass, hm, hfm]
  simp

theorem firstMatch_ascii {σ : Type} (fold fold1 : Nat → Nat → Bool) (t : GoString)
    (eps : List (Endpoint σ)) (ht : isASCII t = true) (he : ∀ e ∈ eps, isASCII e.Path = true) :
    firstMatch fold t eps = firstMatch fold1 t eps := by
  induction eps with
  | nil => rfl
  | cons e rest ih =>
    have h1 := EqualFold_ascii fold fold1 t e.Path ht (he e (List.mem_cons_self _ _))
    have h2 := ih (fun x hx => he x (List.mem_cons_of_mem _ hx))
    simp [firstMatch, h1, h2]

/-- When the request path and the endpoint paths are ASCII, the handler does
not depend on the fold table. -/
theorem fn_ascii {σ : Type} (fold fold1 : Nat → Nat → Bool) (cfg : config σ) (next : Handler σ)
    (w : ResponseWriter) (r : Request) (s : σ) (hr : isASCII r.URL.Path = true)
    (he : ∀ e ∈ cfg.Endpoints, isASCII e.Path = true) :
    fn fold cfg next w r s = fn fold1 cfg next w r s := by
  rw [fn_eq, fn_eq,
    firstMatch_ascii fold fold1 _ cfg.Endpoints (isASCII_TrimSuffix _ _ hr) he]

/-! ## The assembled configuration -/

theorem foldl_apply_endpoints {σ : Type} (opts : List (ConfigOption σ)) (c : config σ) :
    ((opts.map ConfigOption.apply).foldl (fun cfg configFunc => configFunc cfg) c).Endpoints
      = c.Endpoints ++ addedEndpoints opts := by
  induction opts generalizing c with
  | nil => simp [addedEndpoints]
  | cons o rest ih =>
    cases o <;>
      simp [ih, addedEndpoints, ConfigOption.apply, ConfigOption.added, WithEndpointDefaultProbe,
        WithEndpoint, WithNext]

theorem applyConfigFuncs_endpoints {σ : Type} (opts : List (ConfigOption σ)) :
    (applyConfigFuncs (opts.map ConfigOption.apply)).Endpoints = addedEndpoints opts := by
  simp [applyConfigFuncs, foldl_apply_endpoints]

theorem injectDefaults_next {σ : Type} (cfg : config σ) : (injectDefaults cfg).Next = cfg.Next := by
  unfold injectDefaults
  split <;> rfl

/-! ## C1 -/

/-- C1 as stated fails twice.  (a) With `WithNext(always)` the configuration
holds the default endpoint `/livez`, a GET `/livez` matches it and its probe
is true, yet the request is handed to the next handler (404 here).
(b) With two endpoints `/x`, the first unhealthy and the second healthy, a GET
`/x` matches the second endpoint, whose probe is true, yet the answer is 503.
All paths are ASCII, so the fold table plays no part (`fn_ascii`). -/
theorem C1_counterexample :
    ((buildConfig [WithNext (some always)] : config Unit).Endpoints.head?
        = some { Path := DefaultLivenessEndpoint, Probe := defaultProbe }
      ∧ (request "GET" "/livez").Method = MethodGet
      ∧ EqualFold asciiFold (TrimSuffix (request "GET" "/livez").URL.Path (str "/"))
          DefaultLivenessEndpoint = true
      ∧ ((defaultProbe : HealthChecker Unit) (request "GET" "/livez") ()).1 = true
      ∧ NewHealthChecker asciiFold [WithNext (some always)] notFound [] (request "GET" "/livez") ()
          = ([WriterCall.WriteHeader 404, WriterCall.Write (str "404 page not found\n")], ()))
    ∧ ((buildConfig [WithEndpoint (str "/x") unhealthy, WithEndpoint (str "/x") defaultProbe]
          : config Unit).Endpoints.getLast?
        = some { Path := str "/x", Probe := defaultProbe }
      ∧ EqualFold asciiFold (TrimSuffix (request "GET" "/x").URL.Path (str "/")) (str "/x") = true
      ∧ ((defaultProbe : HealthChecker Unit) (request "GET" "/x") ()).1 = true
      ∧ NewHealthChecker asciiFold [WithEndpoint (str "/x") unhealthy, WithEndpoint (str "/x") defaultProbe]
          notFound [] (request "GET" "/x") () = (answer 503, ())) := by
  refine ⟨⟨rfl, by decide, by decide, rfl, by decide⟩, ⟨rfl, by decide, rfl, by decide⟩⟩

/-- C1, amended: for every configuration built by `NewHealthChecker` and every
GET or HEAD request that the bypass predicate does not claim (it is nil or
returns false), if `E` is the first endpoint of the list whose path equals the
request path, one trailing "/" stripped, under case-insensitive comparison,
then the handler sets `Content-Type: text/plain`, writes status 200 if
`E.Probe(request)` is true and 503 otherwise, writes no body and does not
call the next handler. -/
theorem first_match_answers {σ : Type} (fold : Nat → Nat → Bool) (configFuncs : List (configFunc σ))
    (next : Handler σ) (w : ResponseWriter) (r : Request) (s : σ)
    (pre : List (Endpoint σ)) (E : Endpoint σ) (post : List (Endpoint σ))
    (hbypass : (evalNext (buildConfig configFuncs) r s).1 = false)
    (hmethod : r.Method = MethodGet ∨ r.Method = MethodHead)
    (hlist : (buildConfig configFuncs).Endpoints = pre ++ E :: post)
    (hpre : ∀ e ∈ pre, EqualFold fold (TrimSuffix r.URL.Path (str "/")) e.Path = false)
    (hE : EqualFold fold (TrimSuffix r.URL.Path (str "/")) E.Path = true) :
    NewHealthChecker fold configFuncs next w r s =
      (w ++ answer (if (E.Probe r (evalNext (buildConfig configFuncs) r s).2).1 then 200 else 503),
        (E.Probe r (evalNext (buildConfig configFuncs) r s).2).2) := by
  exact fn_first_match fold (buildConfig configFuncs) next w r s pre E post hbypass hmethod hlist
    hpre hE

/-- Witness for C1 amended: `/live` healthy then `/ready` unhealthy, HEAD `/Ready/`. -/
theorem first_match_answers_witness :
    NewHealthChecker asciiFold
        [WithEndpointDefaultProbe (str "/live"), WithEndpoint (str "/ready") unhealthy]
        notFound [] (request "HEAD" "/Ready/") ()
      = (answer 503, ()) :=
  first_match_answers asciiFold
    [WithEndpointDefaultProbe (str "/live"), WithEndpoint (str "/ready") unhealthy]
    notFound [] (request "HEAD" "/Ready/") ()
    [{ Path := str "/live", Probe := defaultProbe }] { Path := str "/ready", Probe := unhealthy } []
    rfl (Or.inr (by decide)) rfl
    (by intro e he; simp at he; subst he; decide)
    (by decide)

/-! ## C2 -/

/-- C2: for every configuration and every request whose method is not
exactly "GET" or "HEAD", the outcome is that of the next handler called with
the writer and the request as received (the handler writes no status and no
header), whatever the path, the endpoints and their probes are. -/
theorem other_method_delegates {σ : Type} (fold : Nat → Nat → Bool)
    (configFuncs : List (configFunc σ)) (next : Handler σ) (w : ResponseWriter) (r : Request)
    (s : σ) (hget : r.Method ≠ MethodGet) (hhead : r.Method ≠ MethodHead) :
    NewHealthChecker fold configFuncs next w r s
      = next w r (evalNext (buildConfig configFuncs) r s).2 := by
  simp only [NewHealthChecker, fn_eq]
  split
  · rfl
  · simp [hget, hhead]

/-- Witness for C2: POST, and lower-case "get", to the configured `/live`. -/
theorem other_method_delegates_witness :
    (request "POST" "/live").Method ≠ MethodGet ∧ (request "POST" "/live").Method ≠ MethodHead
      ∧ NewHealthChecker asciiFold [WithEndpointDefaultProbe (str "/live")] notFound []
          (request "POST" "/live") ()
        = notFound [] (request "POST" "/live") ()
      ∧ NewHealthChecker asciiFold [WithEndpointDefaultProbe (str "/live")] notFound []
          (request "get" "/live") ()
        = notFound [] (request "get" "/live") () :=
  ⟨by decide, by decide,
    other_method_delegates asciiFold [WithEndpointDefaultProbe (str "/live")] notFound []
      (request "POST" "/live") () (by decide) (by decide),
    other_method_delegates asciiFold [WithEndpointDefaultProbe (str "/live")] notFound []
      (request "get" "/live") () (by decide) (by decide)⟩

/-! ## C3 -/

/-- C3: for every configuration whose bypass predicate is not nil and every
request on which it returns true, the outcome is that of the next handler
called with the writer and the request as received, whatever the method and
the path are. -/
theorem bypass_delegates {σ : Type} (fold : Nat → Nat → Bool) (configFuncs : List (configFunc σ))
    (n : Request → σ → Bool × σ) (next : Handler σ) (w : ResponseWriter) (r : Request) (s : σ)
    (hnext : (buildConfig configFuncs).Next = some n) (htrue : (n r s).1 = true) :
    NewHealthChecker fold configFuncs next w r s = next w r (n r s).2 := by
  simp only [NewHealthChecker, fn_eq, evalNext_some _ r s n hnext, htrue]
  simp

/-- Witness for C3: with `WithNext(always)` and the default endpoints, GET
`/livez` is not intercepted. -/
theorem bypass_delegates_witness :
    (buildConfig [WithNext (some always)] : config Unit).Endpoints.map (fun e => e.Path)
        = [str "/livez", str "/readyz", str "/startupz"]
      ∧ NewHealthChecker asciiFold [WithNext (some always)] notFound [] (request "GET" "/livez") ()
        = notFound [] (request "GET" "/livez") () :=
  ⟨by decide,
    bypass_delegates asciiFold [WithNext (some always)] always notFound [] (request "GET" "/livez") ()
      rfl rfl⟩

/-! ## C4 -/

/-- C4: for every sequence of options, the endpoint list of the configuration
is the three defaults `/livez`, `/readyz`, `/startupz` with the always-true
probe when no option added an endpoint (so also when all options are
`WithNext`), and otherwise exactly the endpoints the options added, in order:
no default the caller did not add.  With only
`WithEndpointDefaultProbe("/live")`, GET `/readyz` goes to the next handler. -/
theorem default_injection {σ : Type} (opts : List (ConfigOption σ)) (next : Handler σ)
    (w : ResponseWriter) (s : σ) :
    (buildConfig (opts.map ConfigOption.apply)).Endpoints
        = (if opts.all (fun o => (ConfigOption.added o).isNone) then defaultEndpoints
            else addedEndpoints opts)
      ∧ (∀ n : Option (Request → σ → Bool × σ),
          (ConfigOption.added (ConfigOption.withNext n)).isNone = true)
      ∧ (defaultProbe : HealthChecker σ) = (fun _ s1 => (true, s1))
      ∧ NewHealthChecker asciiFold [WithEndpointDefaultProbe (str "/live")] next w
          (request "GET" "/readyz") s = next w (request "GET" "/readyz") s
      ∧ NewHealthChecker asciiFold [WithEndpointDefaultProbe (str "/live")] next w
          (request "GET" "/live") s = (w ++ answer 200, s) := by
  refine ⟨?_, fun _ => rfl, rfl, ?_, ?_⟩
  · have hall : opts.all (fun o => (ConfigOption.added o).isNone) = true ↔ addedEndpoints opts = [] := by
      induction opts with
      | nil => simp [addedEndpoints]
      | cons o rest ih =>
        cases o <;> simp_all [addedEndpoints, ConfigOption.added]
    unfold buildConfig injectDefaults
    rw [applyConfigFuncs_endpoints]
    by_cases h : addedEndpoints opts = []
    · rw [if_pos (by simp [h]), if_pos (hall.mpr h)]
      rfl
    · have hlen : ¬ (addedEndpoints opts).length = 0 := by
        simpa [List.length_eq_zero] using h
      rw [if_neg hlen, if_neg (fun hc => h (hall.mp hc))]
      exact applyConfigFuncs_endpoints opts
  · rw [NewHealthChecker, fn_eq]
    have h1 : (evalNext (buildConfig [WithEndpointDefaultProbe (str "/live")] : config σ)
        (request "GET" "/readyz") s) = (false, s) := rfl
    have h2 : firstMatch asciiFold (TrimSuffix (request "GET" "/readyz").URL.Path (str "/"))
        (buildConfig [WithEndpointDefaultProbe (str "/live")] : config σ).Endpoints = none := by
      rw [firstMatch_none_iff]
      intro e he
      have : e = { Path := str "/live", Probe := defaultProbe } := by
        simpa [buildConfig, injectDefaults, applyConfigFuncs, WithEndpointDefaultProbe] using he
      subst this
      show EqualFold asciiFold (TrimSuffix (str "/readyz") (str "/")) (str "/live") = false
      decide
    rw [h1, h2]
    have hm : ¬ ((request "GET" "/readyz").Method ≠ MethodGet
        ∧ (request "GET" "/readyz").Method ≠ MethodHead) := by decide
    simp [hm]
  · have hE : EqualFold asciiFold (TrimSuffix (str "/live") (str "/")) (str "/live") = true := by
      decide
    have := fn_first_match asciiFold (buildConfig [WithEndpointDefaultProbe (str "/live")])
      next w (request "GET" "/live") s [] { Path := str "/live", Probe := defaultProbe } []
      rfl (Or.inl (by decide)) rfl (by simp) hE
    simpa [NewHealthChecker, defaultProbe] using this

/-! ## C5 -/

theorem TrimSuffix_slash_append (p : GoString) : TrimSuffix (p ++ str "/") (str "/") = p := by
  have h : str "/" = [47] := by decide
  simp [TrimSuffix, HasSuffix, h]

theorem TrimSuffix_no_slash (p : GoString) (h : HasSuffix p (str "/") = false) :
    TrimSuffix p (str "/") = p := by
  simp [TrimSuffix, h]

/-- C5 as stated fails twice.  (a) With the default endpoints the path
`/livez/` is matched (200), and the same path followed by "/", `/livez//`, is
handed to the next handler (404 here).  (b) With the endpoint `/x` bound to a
probe that reads the request path, GET `/x` is matched and answered 503 while
GET `/x/` is answered 200.  All paths are ASCII, so the fold table plays no
part (`fn_ascii`). -/
theorem C5_counterexample :
    (NewHealthChecker asciiFold ([] : List (configFunc Unit)) notFound [] (request "GET" "/livez/") ()
        = (answer 200, ())
      ∧ NewHealthChecker asciiFold ([] : List (configFunc Unit)) notFound []
          (request "GET" "/livez//") ()
        = ([WriterCall.WriteHeader 404, WriterCall.Write (str "404 page not found\n")], ()))
    ∧ (NewHealthChecker asciiFold [WithEndpoint (str "/x") slashProbe] notFound []
          (request "GET" "/x") ()
        = (answer 503, ())
      ∧ NewHealthChecker asciiFold [WithEndpoint (str "/x") slashProbe] notFound []
          (request "GET" "/x/") ()
        = (answer 200, ())) := by
  refine ⟨⟨by decide, by decide⟩, ⟨by decide, by decide⟩⟩

/-- C5, amended: for every configuration and every request path P that does
not itself end in "/", if a GET or HEAD request to P is not bypassed and is
matched by the configured endpoint E, and neither the bypass predicate nor
the probe of E tells the request to P from the request to P followed by "/",
then the two requests produce identical responses: both are intercepted by E,
with the same header and the same status. -/
theorem trailing_slash_same_response {σ : Type} (fold : Nat → Nat → Bool)
    (configFuncs : List (configFunc σ)) (next : Handler σ) (w : ResponseWriter) (r : Request)
    (s : σ) (E : Endpoint σ)
    (hmethod : r.Method = MethodGet ∨ r.Method = MethodHead)
    (hslash : HasSuffix r.URL.Path (str "/") = false)
    (hbypass : (evalNext (buildConfig configFuncs) r s).1 = false)
    (hmatch : firstMatch fold (TrimSuffix r.URL.Path (str "/")) (buildConfig configFuncs).Endpoints
      = some E)
    (hnext : evalNext (buildConfig configFuncs) (withPath r (r.URL.Path ++ str "/")) s
      = evalNext (buildConfig configFuncs) r s)
    (hprobe : E.Probe (withPath r (r.URL.Path ++ str "/")) (evalNext (buildConfig configFuncs) r s).2
      = E.Probe r (evalNext (buildConfig configFuncs) r s).2) :
    NewHealthChecker fold configFuncs next w (withPath r (r.URL.Path ++ str "/")) s
        = NewHealthChecker fold configFuncs next w r s
      ∧ NewHealthChecker fold configFuncs next w r s
        = (w ++ answer (if (E.Probe r (evalNext (buildConfig configFuncs) r s).2).1 then 200 else 503),
            (E.Probe r (evalNext (buildConfig configFuncs) r s).2).2) := by
  have hm : ¬ (r.Method ≠ MethodGet ∧ r.Method ≠ MethodHead) := by
    rcases hmethod with h | h <;> simp [h]
  have hm2 : ¬ ((withPath r (r.URL.Path ++ str "/")).Method ≠ MethodGet
      ∧ (withPath r (r.URL.Path ++ str "/")).Method ≠ MethodHead) := hm
  have ht : TrimSuffix (withPath r (r.URL.Path ++ str "/")).URL.Path (str "/")
      = TrimSuffix r.URL.Path (str "/") := by
    show TrimSuffix (r.URL.Path ++ str "/") (str "/") = _
    rw [TrimSuffix_slash_append, TrimSuffix_no_slash _ hslash]
  have h2 : NewHealthChecker fold configFuncs next w r s
      = (w ++ answer (if (E.Probe r (evalNext (buildConfig configFuncs) r s).2).1 then 200 else 503),
          (E.Probe r (evalNext (buildConfig configFuncs) r s).2).2) := by
    simp only [NewHealthChecker, fn_eq, hbypass, hm, hmatch]
    simp
  refine ⟨?_, h2⟩
  rw [h2]
  simp only [NewHealthChecker, fn_eq, hnext, hbypass, hm2, ht, hmatch, hprobe]
  simp

/-- Witness for C5 amended: the default endpoints, GET `/readyz` and GET `/readyz/`. -/
theorem trailing_slash_same_response_witness :
    NewHealthChecker asciiFold ([] : List (configFunc Unit)) notFound []
        (withPath (request "GET" "/readyz") ((request "GET" "/readyz").URL.Path ++ str "/")) ()
        = NewHealthChecker asciiFold ([] : List (configFunc Unit)) notFound []
            (request "GET" "/readyz") ()
      ∧ NewHealthChecker asciiFold ([] : List (configFunc Unit)) notFound []
            (request "GET" "/readyz") ()
        = (answer 200, ())
      ∧ withPath (request "GET" "/readyz") ((request "GET" "/readyz").URL.Path ++ str "/")
        = request "GET" "/readyz/" :=
  ⟨(trailing_slash_same_response asciiFold ([] : List (configFunc Unit)) notFound []
      (request "GET" "/readyz") () { Path := DefaultReadinessEndpoint, Probe := defaultProbe }
      (Or.inl (by decide)) (by decide) rfl rfl rfl rfl).1,
    by decide, by decide⟩

/-! ## C6 -/

theorem firstMatch_set_of_no_match {σ : Type} (fold : Nat → Nat → Bool) (t : GoString)
    (eps : List (Endpoint σ)) (j : Nat) (Ej E1 : Endpoint σ) (hj : eps[j]? = some Ej)
    (hpath : E1.Path = Ej.Path) (hno : EqualFold fold t Ej.Path = false) :
    firstMatch fold t (eps.set j E1) = firstMatch fold t eps := by
  induction eps generalizing j with
  | nil => simp
  | cons e rest ih =>
    cases j with
    | zero =>
      simp at hj
      subst hj
      simp [firstMatch, hpath, hno]
    | succ j =>
      simp at hj
      simp [firstMatch, ih j hj]

theorem firstMatch_set_of_earlier {σ : Type} (fold : Nat → Nat → Bool) (t : GoString)
    (eps : List (Endpoint σ)) (i j : Nat) (Ei Ej E1 : Endpoint σ) (hij : i < j)
    (hi : eps[i]? = some Ei) (hj : eps[j]? = some Ej) (hpath : E1.Path = Ej.Path)
    (himp : EqualFold fold t Ej.Path = true → EqualFold fold t Ei.Path = true) :
    firstMatch fold t (eps.set j E1) = firstMatch fold t eps := by
  induction eps generalizing i j with
  | nil => simp
  | cons e rest ih =>
    cases j with
    | zero => omega
    | succ j =>
      simp at hj
      cases i with
      | zero =>
        simp at hi
        subst hi
        by_cases he : EqualFold fold t e.Path = true
        · simp [firstMatch, he]
        · have hno : EqualFold fold t Ej.Path = false := by
            cases h : EqualFold fold t Ej.Path with
            | false => rfl
            | true => exact absurd (himp h) he
          simp [firstMatch, he, firstMatch_set_of_no_match fold t rest j Ej E1 hj hpath hno]
      | succ i =>
        simp at hi
        simp [firstMatch, ih i j (by omega) hi hj]

theorem firstMatch_index {σ : Type} (fold : Nat → Nat → Bool) (t : GoString)
    (eps : List (Endpoint σ)) (i : Nat) (Ei : Endpoint σ) (hi : eps[i]? = some Ei)
    (hm : EqualFold fold t Ei.Path = true) :
    ∃ k F, k ≤ i ∧ eps[k]? = some F ∧ firstMatch fold t eps = some F
      ∧ EqualFold fold t F.Path = true
      ∧ ∀ m x, m < k → eps[m]? = some x → EqualFold fold t x.Path = false := by
  induction eps generalizing i with
  | nil => simp at hi
  | cons e rest ih =>
    by_cases he : EqualFold fold t e.Path = true
    · refine ⟨0, e, Nat.zero_le _, by simp, by simp [firstMatch, he], he, ?_⟩
      intro m x hm0
      omega
    · cases i with
      | zero =>
        simp at hi
        subst hi
        exact absurd hm he
      | succ i =>
        simp at hi
        obtain ⟨k, F, hk, hF, hfm, hFm, hmin⟩ := ih i hi
        refine ⟨k + 1, F, by omega, by simpa using hF, by simp [firstMatch, he, hfm], hFm, ?_⟩
        intro m x hmk hx
        cases m with
        | zero =>
          simp at hx
          subst hx
          simpa using he
        | succ m =>
          simp at hx
          exact hmin m x (by omega) hx

/-- C6: in every endpoint list in which the endpoints at positions i < j have
paths equal under the case-insensitive comparison, the outcome of every
request is the same whatever the probe at position j is (it is neither
invoked nor decides the status); and a GET or HEAD request that is not
bypassed and matches both is answered by the probe of the earliest matching
endpoint, at a position k ≤ i.  The comparison is `strings.EqualFold` over a
fold table whose rune classes are transitive. -/
theorem first_match_precedence {σ : Type} (fold : Nat → Nat → Bool) (hfold : FoldTransitive fold)
    (cfg : config σ) (i j : Nat) (Ei Ej : Endpoint σ) (hij : i < j)
    (hi : cfg.Endpoints[i]? = some Ei) (hj : cfg.Endpoints[j]? = some Ej)
    (heq : EqualFold fold Ei.Path Ej.Path = true)
    (next : Handler σ) (w : ResponseWriter) (r : Request) (s : σ) :
    (∀ q : HealthChecker σ,
        fn fold { cfg with Endpoints := cfg.Endpoints.set j { Path := Ej.Path, Probe := q } } next w r s
          = fn fold cfg next w r s)
      ∧ ((evalNext cfg r s).1 = false → (r.Method = MethodGet ∨ r.Method = MethodHead) →
          EqualFold fold (TrimSuffix r.URL.Path (str "/")) Ei.Path = true →
          EqualFold fold (TrimSuffix r.URL.Path (str "/")) Ej.Path = true →
          ∃ k F, k ≤ i ∧ cfg.Endpoints[k]? = some F
            ∧ EqualFold fold (TrimSuffix r.URL.Path (str "/")) F.Path = true
            ∧ (∀ m x, m < k → cfg.Endpoints[m]? = some x →
                EqualFold fold (TrimSuffix r.URL.Path (str "/")) x.Path = false)
            ∧ fn fold cfg next w r s
              = (w ++ answer (if (F.Probe r (evalNext cfg r s).2).1 then 200 else 503),
                  (F.Probe r (evalNext cfg r s).2).2)) := by
  refine ⟨?_, ?_⟩
  · intro q
    have himp : EqualFold fold (TrimSuffix r.URL.Path (str "/")) Ej.Path = true →
        EqualFold fold (TrimSuffix r.URL.Path (str "/")) Ei.Path = true := by
      intro h
      exact EqualFold_trans fold hfold _ _ _ h ((EqualFold_comm fold _ _).mp heq)
    have hfm := firstMatch_set_of_earlier fold (TrimSuffix r.URL.Path (str "/")) cfg.Endpoints i j
      Ei Ej { Path := Ej.Path, Probe := q } hij hi hj rfl himp
    have hev : evalNext { cfg with Endpoints := cfg.Endpoints.set j { Path := Ej.Path, Probe := q } }
        r s = evalNext cfg r s := rfl
    rw [fn_eq, fn_eq, hev, hfm]
  · intro hb hm hmi _
    obtain ⟨k, F, hk, hF, hfm, hFm, hmin⟩ :=
      firstMatch_index fold (TrimSuffix r.URL.Path (str "/")) cfg.Endpoints i Ei hi hmi
    refine ⟨k, F, hk, hF, hFm, hmin, ?_⟩
    have hm2 : ¬ (r.Method ≠ MethodGet ∧ r.Method ≠ MethodHead) := by
      rcases hm with h | h <;> simp [h]
    simp only [fn_eq, hb, hm2, hfm]
    simp

/-- Witness for C6: `/x` unhealthy before `/X` healthy, GET `/x/`: the answer
is 503, also when the second probe is replaced. -/
theorem first_match_precedence_witness :
    EqualFold asciiFold (str "/x") (str "/X") = true
      ∧ fn asciiFold
          { Next := none,
            Endpoints := ([{ Path := str "/x", Probe := unhealthy },
              { Path := str "/X", Probe := defaultProbe }] : List (Endpoint Unit)).set 1
                { Path := str "/X", Probe := slashProbe } }
          notFound [] (request "GET" "/x/") ()
        = fn asciiFold
          { Next := none,
            Endpoints := [{ Path := str "/x", Probe := unhealthy },
              { Path := str "/X", Probe := defaultProbe }] }
          notFound [] (request "GET" "/x/") ()
      ∧ fn asciiFold
          { Next := none,
            Endpoints := ([{ Path := str "/x", Probe := unhealthy },
              { Path := str "/X", Probe := defaultProbe }] : List (Endpoint Unit)) }
          notFound [] (request "GET" "/x/") ()
        = (answer 503, ()) :=
  ⟨by decide,
    (first_match_precedence asciiFold foldTransitive_asciiFold
      { Next := none,
        Endpoints := ([{ Path := str "/x", Probe := unhealthy },
          { Path := str "/X", Probe := defaultProbe }] : List (Endpoint Unit)) }
      0 1 { Path := str "/x", Probe := unhealthy } { Path := str "/X", Probe := defaultProbe }
      (by decide) rfl rfl (by decide) notFound [] (request "GET" "/x/") ()).1 slashProbe,
    by decide⟩

/-! ## Letter case and the trailing slash -/

theorem sameLetter_slash (a : Nat) (h : sameLetter a 47 = true) : a = 47 := by
  simp [sameLetter] at h
  omega

theorem caseVariant_append_slash (x p : GoString) (h : caseVariant x (p ++ [47]) = true) :
    ∃ q, x = q ++ [47] ∧ caseVariant q p = true := by
  induction p generalizing x with
  | nil =>
    cases x with
    | nil => simp [caseVariant] at h
    | cons a rest =>
      simp [caseVariant] at h
      cases rest with
      | nil => exact ⟨[], by simp [sameLetter_slash a h.1], rfl⟩
      | cons c rest2 => simp [caseVariant] at h
  | cons b rest ih =>
    cases x with
    | nil => simp [caseVariant] at h
    | cons a xs =>
      simp [caseVariant] at h
      obtain ⟨q, hq, hc⟩ := ih xs h.2
      exact ⟨a :: q, by simp [hq], by simp [caseVariant, h.1, hc]⟩

theorem sameLetter_symm (a b : Nat) (h : sameLetter a b = true) : sameLetter b a = true := by
  simp [sameLetter] at h ⊢
  omega

theorem caseVariant_symm (q p : GoString) (h : caseVariant q p = true) : caseVariant p q = true := by
  induction q generalizing p with
  | nil => cases p <;> simp_all [caseVariant]
  | cons a rest ih =>
    cases p with
    | nil => simp [caseVariant] at h
    | cons b rest2 =>
      simp [caseVariant] at h
      simp [caseVariant, sameLetter_symm a b h.1, ih rest2 h.2]

theorem HasSuffix_slash_iff (p : GoString) :
    HasSuffix p (str "/") = true ↔ ∃ q, p = q ++ [47] := by
  have h47 : str "/" = [47] := by decide
  constructor
  · intro h
    simp [HasSuffix, h47] at h
    refine ⟨p.take (p.length - 1), ?_⟩
    rw [← h.2]
    exact (List.take_append_drop _ _).symm
  · rintro ⟨q, rfl⟩
    simp [HasSuffix, h47]

theorem caseVariant_no_slash (q p : GoString) (h : caseVariant q p = true)
    (hp : HasSuffix p (str "/") = false) : HasSuffix q (str "/") = false := by
  cases hq : HasSuffix q (str "/") with
  | false => rfl
  | true =>
    obtain ⟨q1, rfl⟩ := (HasSuffix_slash_iff q).mp hq
    obtain ⟨p1, hp1, _⟩ := caseVariant_append_slash p q1 (caseVariant_symm _ _ h)
    have : HasSuffix p (str "/") = true := (HasSuffix_slash_iff p).mpr ⟨p1, hp1⟩
    rw [hp] at this
    exact absurd this (by decide)

/-! ## C8 -/

/-- C8: for every sequence of options, the endpoint list before default
injection is the list of (path, probe) pairs of the `WithEndpoint` and
`WithEndpointDefaultProbe` options in the order given; an endpoint option
appends its one endpoint at the end of the list and keeps what is there,
`WithNext` leaves the list alone, `WithEndpointDefaultProbe(p)` is
`WithEndpoint(p, defaultProbe)`, and an option is a total function of the
configuration for every path. -/
theorem options_append_in_order {σ : Type} (opts : List (ConfigOption σ)) :
    (applyConfigFuncs (opts.map ConfigOption.apply)).Endpoints = addedEndpoints opts
      ∧ (∀ (o : ConfigOption σ) (c : config σ),
          (ConfigOption.apply o c).Endpoints = c.Endpoints ++ (ConfigOption.added o).toList)
      ∧ (∀ (path : GoString) (probe : HealthChecker σ),
          ConfigOption.added (ConfigOption.withEndpoint path probe)
            = some { Path := path, Probe := probe })
      ∧ (∀ path : GoString,
          (WithEndpointDefaultProbe path : configFunc σ) = WithEndpoint path defaultProbe)
      ∧ (∀ (o : ConfigOption σ) (rest : List (ConfigOption σ)),
          applyConfigFuncs ((rest ++ [o]).map ConfigOption.apply)
            = ConfigOption.apply o (applyConfigFuncs (rest.map ConfigOption.apply))) := by
  refine ⟨applyConfigFuncs_endpoints opts, ?_, fun _ _ => rfl, fun _ => rfl, ?_⟩
  · intro o c
    cases o <;>
      simp [ConfigOption.apply, ConfigOption.added, WithEndpointDefaultProbe, WithEndpoint, WithNext]
  · intro o rest
    simp [applyConfigFuncs, List.foldl_append]

/-! ## Interception and delegation -/

theorem evalNext_false_iff {σ : Type} (cfg : config σ) (r : Request) (s : σ) :
    (evalNext cfg r s).1 = false ↔
      (cfg.Next = none ∨ ∃ n, cfg.Next = some n ∧ (n r s).1 = false) := by
  cases h : cfg.Next with
  | none => simp [evalNext, h]
  | some n => simp [evalNext, h]

theorem method_consts : MethodGet = str "GET" ∧ MethodHead = str "HEAD" := ⟨rfl, rfl⟩

/-- Either the interception condition holds and the handler answers with the
probe of the first matching endpoint, or it does not hold and the handler
hands the request on. -/
theorem fn_cases {σ : Type} (fold : Nat → Nat → Bool) (cfg : config σ) (w : ResponseWriter)
    (r : Request) (s : σ) :
    (Intercepts fold cfg r s ∧ ∃ e,
        firstMatch fold (TrimSuffix r.URL.Path (str "/")) cfg.Endpoints = some e ∧
        Answers (fn fold cfg) w r s (if (e.Probe r (evalNext cfg r s).2).1 then 200 else 503)
          (e.Probe r (evalNext cfg r s).2).2)
      ∨ (¬ Intercepts fold cfg r s ∧ Delegates (fn fold cfg) w r s (evalNext cfg r s).2) := by
  by_cases hb : (evalNext cfg r s).1 = true
  · right
    refine ⟨?_, ?_⟩
    · intro hI
      have := (evalNext_false_iff cfg r s).mpr hI.1
      simp [hb] at this
    · intro next
      simp [fn_eq, hb]
  · have hb1 : (evalNext cfg r s).1 = false := by simpa using hb
    by_cases hm : r.Method ≠ MethodGet ∧ r.Method ≠ MethodHead
    · right
      refine ⟨?_, ?_⟩
      · intro hI
        rcases hI.2.1 with h | h
        · exact hm.1 h
        · exact hm.2 h
      · intro next
        simp [fn_eq, hb1, hm]
    · cases hfm : firstMatch fold (TrimSuffix r.URL.Path (str "/")) cfg.Endpoints with
      | none =>
        right
        refine ⟨?_, ?_⟩
        · intro hI
          obtain ⟨e, he, heq⟩ := hI.2.2
          have := (firstMatch_none_iff fold _ cfg.Endpoints).mp hfm e he
          simp [heq] at this
        · intro next
          simp only [fn_eq, hb1, hm, hfm]
          simp
      | some e =>
        left
        refine ⟨⟨(evalNext_false_iff cfg r s).mp hb1, ?_, ?_⟩, e, rfl, ?_⟩
        · by_cases hg : r.Method = MethodGet
          · exact Or.inl hg
          · by_cases hh : r.Method = MethodHead
            · exact Or.inr hh
            · exact absurd ⟨hg, hh⟩ hm
        · exact ⟨e, (firstMatch_some_mem fold _ _ e hfm).1, (firstMatch_some_mem fold _ _ e hfm).2⟩
        · intro next
          simp only [fn_eq, hb1, hm, hfm]
          simp

/-- No handler both answers and delegates a request. -/
theorem not_answers_and_delegates {σ : Type} (h : Handler σ → Handler σ) (w : ResponseWriter)
    (r : Request) (s : σ) (c : Nat) (s1 s2 : σ) (ha : Answers h w r s c s1)
    (hd : Delegates h w r s s2) : False := by
  have h1 := ha (fun w0 _ s0 => (w0, s0))
  have h2 := hd (fun w0 _ s0 => (w0, s0))
  rw [h1] at h2
  have h3 := congrArg (fun x => x.1.length) h2
  simp [answer] at h3

/-- A request whose normalized path equals no endpoint path is delegated,
when the configuration has no bypass predicate. -/
theorem fn_delegates_of_no_match {σ : Type} (fold : Nat → Nat → Bool) (cfg : config σ)
    (w : ResponseWriter) (r : Request) (s : σ) (hnext : cfg.Next = none)
    (hno : ∀ e ∈ cfg.Endpoints, EqualFold fold (TrimSuffix r.URL.Path (str "/")) e.Path = false) :
    Delegates (fn fold cfg) w r s s := by
  rcases fn_cases fold cfg w r s with ⟨hI, _⟩ | ⟨_, hd⟩
  · obtain ⟨e, he, heq⟩ := hI.2.2
    have := hno e he
    simp [heq] at this
  · simpa [evalNext_none cfg r s hnext] using hd

theorem mem_default_paths {σ : Type} (e : Endpoint σ)
    (he : e ∈ (buildConfig ([] : List (configFunc σ))).Endpoints) :
    e.Path = str "/livez" ∨ e.Path = str "/readyz" ∨ e.Path = str "/startupz" := by
  simp [buildConfig, injectDefaults, applyConfigFuncs] at he
  rcases he with h | h | h
  · subst h; exact Or.inl rfl
  · subst h; exact Or.inr (Or.inl rfl)
  · subst h; exact Or.inr (Or.inr rfl)

/-! ## C9 -/

/-- C9: for every configuration and request, the handler answers the request
itself if and only if the bypass predicate is nil or returns false, the method
is GET or HEAD, and some configured endpoint's path equals the request path
with one trailing "/" stripped under case-insensitive comparison; it delegates
if and only if that condition fails.  `/notDefined/readyz` against the
defaults and `/probe/livez` against `/probe/live` and `/probe/ready` are
delegated. -/
theorem interception_iff {σ : Type} (fold : Nat → Nat → Bool) (configFuncs : List (configFunc σ))
    (w : ResponseWriter) (r : Request) (s : σ) :
    ((∃ c s1, Answers (NewHealthChecker fold configFuncs) w r s c s1)
        ↔ Intercepts fold (buildConfig configFuncs) r s)
      ∧ ((∃ s1, Delegates (NewHealthChecker fold configFuncs) w r s s1)
        ↔ ¬ Intercepts fold (buildConfig configFuncs) r s)
      ∧ Delegates (NewHealthChecker asciiFold ([] : List (configFunc σ))) w
          (request "GET" "/notDefined/readyz") s s
      ∧ Delegates (NewHealthChecker asciiFold
            [WithEndpointDefaultProbe (str "/probe/live"), WithEndpoint (str "/probe/ready") unhealthy])
          w (request "GET" "/probe/livez") s s := by
  have hc := fn_cases fold (buildConfig configFuncs) w r s
  refine ⟨⟨?_, ?_⟩, ⟨?_, ?_⟩, ?_, ?_⟩
  · rintro ⟨c, s1, ha⟩
    rcases hc with ⟨hI, _⟩ | ⟨_, hd⟩
    · exact hI
    · exact (not_answers_and_delegates _ w r s c s1 _ ha hd).elim
  · intro hI
    rcases hc with ⟨_, e, _, ha⟩ | ⟨hn, _⟩
    · exact ⟨_, _, ha⟩
    · exact absurd hI hn
  · rintro ⟨s1, hd⟩ hI
    rcases hc with ⟨_, e, _, ha⟩ | ⟨hn, _⟩
    · exact not_answers_and_delegates _ w r s _ _ s1 ha hd
    · exact hn hI
  · intro hn
    rcases hc with ⟨hI, _⟩ | ⟨_, hd⟩
    · exact absurd hI hn
    · exact ⟨_, hd⟩
  · apply fn_delegates_of_no_match asciiFold (buildConfig []) w _ s rfl
    intro e he
    have hmem := mem_default_paths e he
    have ht : TrimSuffix (request "GET" "/notDefined/readyz").URL.Path (str "/")
        = str "/notDefined/readyz" := by decide
    rw [ht]
    rcases hmem with h | h | h <;> rw [h] <;> decide
  · apply fn_delegates_of_no_match asciiFold
      (buildConfig [WithEndpointDefaultProbe (str "/probe/live"),
        WithEndpoint (str "/probe/ready") unhealthy]) w _ s rfl
    intro e he
    have hmem : e.Path = str "/probe/live" ∨ e.Path = str "/probe/ready" := by
      simp [buildConfig, injectDefaults, applyConfigFuncs, WithEndpointDefaultProbe, WithEndpoint] at he
      rcases he with h | h
      · subst h; exact Or.inl rfl
      · subst h; exact Or.inr rfl
    have ht : TrimSuffix (request "GET" "/probe/livez").URL.Path (str "/")
        = str "/probe/livez" := by decide
    rw [ht]
    rcases hmem with h | h <;> rw [h] <;> decide

/-! ## C10 -/

/-- C10: on every request the handler does exactly one of two things.  On a
match it sets the Content-Type header and writes one status code, 200 or 503,
whatever the next handler is (it is not called); otherwise the outcome is
that of one call of the next handler with the writer and the request as
received, and the handler writes nothing itself.  A delegated GET
`/unknown/` reaches the next handler with the path `/unknown/`, not
`/unknown`. -/
theorem terminal_or_verbatim {σ : Type} (fold : Nat → Nat → Bool)
    (configFuncs : List (configFunc σ)) (w : ResponseWriter) (r : Request) (s : σ) :
    ((Intercepts fold (buildConfig configFuncs) r s
          ∧ (∃ c s1, (c = 200 ∨ c = 503) ∧ Answers (NewHealthChecker fold configFuncs) w r s c s1)
          ∧ ¬ ∃ s1, Delegates (NewHealthChecker fold configFuncs) w r s s1)
        ∨ (¬ Intercepts fold (buildConfig configFuncs) r s
          ∧ (∃ s1, Delegates (NewHealthChecker fold configFuncs) w r s s1)
          ∧ ¬ ∃ c s1, Answers (NewHealthChecker fold configFuncs) w r s c s1))
      ∧ NewHealthChecker asciiFold ([] : List (configFunc σ)) echoPath w
          (request "GET" "/unknown/") s = (w ++ [WriterCall.Write (str "/unknown/")], s) := by
  refine ⟨?_, ?_⟩
  · rcases fn_cases fold (buildConfig configFuncs) w r s with ⟨hI, e, _, ha⟩ | ⟨hn, hd⟩
    · left
      refine ⟨hI, ⟨_, _, ?_, ha⟩, ?_⟩
      · split <;> simp
      · rintro ⟨s1, hd⟩
        exact not_answers_and_delegates _ w r s _ _ s1 ha hd
    · right
      refine ⟨hn, ⟨_, hd⟩, ?_⟩
      rintro ⟨c, s1, ha⟩
      exact not_answers_and_delegates _ w r s c s1 _ ha hd
  · have hd : Delegates (fn asciiFold (buildConfig ([] : List (configFunc σ)))) w
        (request "GET" "/unknown/") s s := by
      apply fn_delegates_of_no_match asciiFold (buildConfig []) w _ s rfl
      intro e he
      have hmem := mem_default_paths e he
      have ht : TrimSuffix (request "GET" "/unknown/").URL.Path (str "/")
          = str "/unknown" := by decide
      rw [ht]
      rcases hmem with h | h | h <;> rw [h] <;> decide
    exact hd echoPath

/-! ## Trailing slashes under `EqualFold` -/

theorem str_slash : str "/" = [47] := by decide

theorem runeEqualFold_slash (fold : Nat → Nat → Bool) (hslash : SlashFoldsAlone fold) (x : Nat)
    (h : runeEqualFold fold x 47 = true) : x = 47 := by
  by_contra hx
  have hx2 : ¬ (47 : Nat) = x := fun e => hx e.symm
  by_cases hlt : 47 < x
  · by_cases h128 : x < 128
    · simp [runeEqualFold, hx2, hlt, RuneSelf, h128] at h
    · simp [runeEqualFold, hx2, hlt, RuneSelf, h128, hslash x] at h
  · have h47 : (47 : Nat) < RuneSelf := by decide
    simp [runeEqualFold, hx2, hlt, h47] at h
    omega

theorem forall₂_append_singleton {R : Nat → Nat → Prop} (l2 : List Nat) (y : Nat) :
    ∀ l : List Nat, List.Forall₂ R l (l2 ++ [y]) →
      ∃ l1 x, l = l1 ++ [x] ∧ List.Forall₂ R l1 l2 ∧ R x y := by
  induction l2 with
  | nil =>
    intro l h
    cases h with
    | cons hxy hrest =>
      rw [List.forall₂_nil_right_iff] at hrest
      subst hrest
      exact ⟨[], _, rfl, List.Forall₂.nil, hxy⟩
  | cons b rest ih =>
    intro l h
    cases h with
    | cons hab hrest =>
      obtain ⟨l1, x, hl, hf, hr⟩ := ih _ hrest
      exact ⟨_ :: l1, x, by rw [hl]; rfl, List.Forall₂.cons hab hf, hr⟩

/-- A string equal under `EqualFold` to a string ending in "/" ends in "/",
and the two strings without that "/" are equal under `EqualFold`. -/
theorem EqualFold_append_slash (fold : Nat → Nat → Bool) (hslash : SlashFoldsAlone fold)
    (t p : GoString) (h : EqualFold fold t (p ++ [47]) = true) :
    ∃ q, t = q ++ [47] ∧ EqualFold fold q p = true := by
  rw [EqualFold_iff, runes_append_ascii p 47 (by decide)] at h
  obtain ⟨l1, x, hl, hf, hr⟩ := forall₂_append_singleton _ _ _ h
  have hx : x = 47 := runeEqualFold_slash fold hslash x hr
  subst hx
  obtain ⟨q, hq, hrq⟩ := runes_last_ascii t l1 47 hl (by decide)
  refine ⟨q, hq, ?_⟩
  rw [EqualFold_iff, hrq]
  exact hf

/-- Strings equal under `EqualFold` have the same number of runes. -/
theorem EqualFold_runes_length (fold : Nat → Nat → Bool) (s t : GoString)
    (h : EqualFold fold s t = true) : (runes s).length = (runes t).length := by
  rw [EqualFold_iff] at h
  exact h.length_eq

theorem EqualFold_slash_left (fold : Nat → Nat → Bool) (p : GoString) :
    EqualFold fold (p ++ [47]) p = false := by
  cases h : EqualFold fold (p ++ [47]) p with
  | false => rfl
  | true =>
    have := EqualFold_runes_length fold _ _ h
    rw [runes_append_ascii p 47 (by decide)] at this
    simp at this

theorem EqualFold_slash_right (fold : Nat → Nat → Bool) (p : GoString) :
    EqualFold fold p (p ++ [47]) = false := by
  cases h : EqualFold fold p (p ++ [47]) with
  | false => rfl
  | true =>
    have := EqualFold_runes_length fold _ _ h
    rw [runes_append_ascii p 47 (by decide)] at this
    simp at this

/-- Normalization respects `EqualFold`: paths equal under it have normalized
paths equal under it. -/
theorem EqualFold_TrimSuffix (fold : Nat → Nat → Bool) (hslash : SlashFoldsAlone fold)
    (p1 p2 : GoString) (h : EqualFold fold p1 p2 = true) :
    EqualFold fold (TrimSuffix p1 (str "/")) (TrimSuffix p2 (str "/")) = true := by
  cases h2 : HasSuffix p2 (str "/") with
  | true =>
    obtain ⟨q2, rfl⟩ := (HasSuffix_slash_iff p2).mp h2
    obtain ⟨q1, rfl, hq⟩ := EqualFold_append_slash fold hslash p1 q2 h
    rw [← str_slash, TrimSuffix_slash_append, TrimSuffix_slash_append]
    exact hq
  | false =>
    cases h1 : HasSuffix p1 (str "/") with
    | true =>
      obtain ⟨q1, rfl⟩ := (HasSuffix_slash_iff p1).mp h1
      obtain ⟨q2, hq2, _⟩ := EqualFold_append_slash fold hslash p2 q1 ((EqualFold_comm fold _ _).mp h)
      have := (HasSuffix_slash_iff p2).mpr ⟨q2, hq2⟩
      rw [h2] at this
      exact absurd this (by decide)
    | false =>
      rw [TrimSuffix_no_slash _ h1, TrimSuffix_no_slash _ h2]
      exact h

/-! ## The position of the selected endpoint -/

theorem matchIndex_congr {σ : Type} (fold : Nat → Nat → Bool) (t1 t2 : GoString)
    (eps : List (Endpoint σ))
    (h : ∀ e ∈ eps, EqualFold fold t1 e.Path = EqualFold fold t2 e.Path) :
    matchIndex fold t1 eps = matchIndex fold t2 eps := by
  induction eps with
  | nil => rfl
  | cons e rest ih =>
    simp only [matchIndex, h e (List.mem_cons_self _ _),
      ih (fun x hx => h x (List.mem_cons_of_mem _ hx))]

theorem firstMatch_eq_matchIndex {σ : Type} (fold : Nat → Nat → Bool) (t : GoString)
    (eps : List (Endpoint σ)) :
    firstMatch fold t eps = (matchIndex fold t eps).bind (fun k => eps[k]?) := by
  induction eps with
  | nil => rfl
  | cons e rest ih =>
    by_cases h : EqualFold fold t e.Path = true
    · simp [firstMatch, matchIndex, h]
    · simp only [firstMatch, matchIndex, h, ih]
      cases matchIndex fold t rest <;> simp

theorem EqualFold_congr_left (fold : Nat → Nat → Bool) (hfold : FoldTransitive fold)
    (t1 t2 p : GoString) (h : EqualFold fold t1 t2 = true) :
    EqualFold fold t1 p = EqualFold fold t2 p := by
  cases h1 : EqualFold fold t1 p with
  | true =>
    exact (EqualFold_trans fold hfold _ _ _ ((EqualFold_comm fold _ _).mp h) h1).symm
  | false =>
    cases h2 : EqualFold fold t2 p with
    | false => rfl
    | true =>
      have := EqualFold_trans fold hfold _ _ _ h h2
      rw [h1] at this
      exact absurd this (by decide)

theorem matchIndex_some {σ : Type} (fold : Nat → Nat → Bool) (t : GoString)
    (eps : List (Endpoint σ)) (k : Nat) (h : matchIndex fold t eps = some k) :
    ∃ E, eps[k]? = some E ∧ EqualFold fold t E.Path = true
      ∧ ∀ m x, m < k → eps[m]? = some x → EqualFold fold t x.Path = false := by
  induction eps generalizing k with
  | nil => simp [matchIndex] at h
  | cons e rest ih =>
    by_cases he : EqualFold fold t e.Path = true
    · simp [matchIndex, he] at h
      subst h
      exact ⟨e, by simp, he, fun m x hm => by omega⟩
    · simp only [matchIndex, he] at h
      cases hk : matchIndex fold t rest with
      | none => simp [hk] at h
      | some j =>
        simp [hk] at h
        subst h
        obtain ⟨E, hE, hm, hmin⟩ := ih j hk
        refine ⟨E, by simpa using hE, hm, ?_⟩
        intro m x hmj hx
        cases m with
        | zero =>
          simp at hx
          subst hx
          simpa using he
        | succ m =>
          simp at hx
          exact hmin m x (by omega) hx

/-- The handler by the position of the selected endpoint. -/
theorem fn_cases_index {σ : Type} (fold : Nat → Nat → Bool) (cfg : config σ) (w : ResponseWriter)
    (r : Request) (s : σ) (hb : (evalNext cfg r s).1 = false)
    (hm : r.Method = MethodGet ∨ r.Method = MethodHead) :
    (matchIndex fold (TrimSuffix r.URL.Path (str "/")) cfg.Endpoints = none
        ∧ Delegates (fn fold cfg) w r s (evalNext cfg r s).2)
      ∨ ∃ k E, matchIndex fold (TrimSuffix r.URL.Path (str "/")) cfg.Endpoints = some k
        ∧ cfg.Endpoints[k]? = some E
        ∧ Answers (fn fold cfg) w r s (if (E.Probe r (evalNext cfg r s).2).1 then 200 else 503)
            (E.Probe r (evalNext cfg r s).2).2 := by
  have hm2 : ¬ (r.Method ≠ MethodGet ∧ r.Method ≠ MethodHead) := by
    rcases hm with h | h <;> simp [h]
  have hfm := firstMatch_eq_matchIndex fold (TrimSuffix r.URL.Path (str "/")) cfg.Endpoints
  cases hk : matchIndex fold (TrimSuffix r.URL.Path (str "/")) cfg.Endpoints with
  | none =>
    left
    refine ⟨rfl, ?_⟩
    rw [hk] at hfm
    intro next
    simp only [fn_eq, hb, hm2, hfm]
    simp
  | some k =>
    rw [hk] at hfm
    simp only [Option.some_bind] at hfm
    obtain ⟨E, hE, _, _⟩ := matchIndex_some fold _ cfg.Endpoints k hk
    right
    refine ⟨k, E, rfl, hE, ?_⟩
    rw [hE] at hfm
    intro next
    simp only [fn_eq, hb, hm2, hfm]
    simp

theorem slashFoldsAlone_asciiFold : SlashFoldsAlone asciiFold := fun _ => rfl

/-! ## C11 -/

/-- C11: for every configuration and every two GET or HEAD requests that are
not bypassed and whose paths are equal under the handler's case-insensitive
comparison, either both are delegated or both are intercepted by the endpoint
at the same position k of the endpoint list.  The comparison is
`strings.EqualFold` over a fold table whose rune classes are transitive and
in which "/" folds with no other rune. -/
theorem case_insensitive_consistent {σ : Type} (fold : Nat → Nat → Bool)
    (hfold : FoldTransitive fold) (hslash : SlashFoldsAlone fold)
    (configFuncs : List (configFunc σ)) (w1 w2 : ResponseWriter) (r1 r2 : Request) (s1 s2 : σ)
    (hb1 : (evalNext (buildConfig configFuncs) r1 s1).1 = false)
    (hb2 : (evalNext (buildConfig configFuncs) r2 s2).1 = false)
    (hm1 : r1.Method = MethodGet ∨ r1.Method = MethodHead)
    (hm2 : r2.Method = MethodGet ∨ r2.Method = MethodHead)
    (heq : EqualFold fold r1.URL.Path r2.URL.Path = true) :
    (Delegates (NewHealthChecker fold configFuncs) w1 r1 s1
          (evalNext (buildConfig configFuncs) r1 s1).2
        ∧ Delegates (NewHealthChecker fold configFuncs) w2 r2 s2
          (evalNext (buildConfig configFuncs) r2 s2).2)
      ∨ ∃ k E, (buildConfig configFuncs).Endpoints[k]? = some E
        ∧ matchIndex fold (TrimSuffix r1.URL.Path (str "/")) (buildConfig configFuncs).Endpoints
          = some k
        ∧ matchIndex fold (TrimSuffix r2.URL.Path (str "/")) (buildConfig configFuncs).Endpoints
          = some k
        ∧ Answers (NewHealthChecker fold configFuncs) w1 r1 s1
            (if (E.Probe r1 (evalNext (buildConfig configFuncs) r1 s1).2).1 then 200 else 503)
            (E.Probe r1 (evalNext (buildConfig configFuncs) r1 s1).2).2
        ∧ Answers (NewHealthChecker fold configFuncs) w2 r2 s2
            (if (E.Probe r2 (evalNext (buildConfig configFuncs) r2 s2).2).1 then 200 else 503)
            (E.Probe r2 (evalNext (buildConfig configFuncs) r2 s2).2).2 := by
  have ht := EqualFold_TrimSuffix fold hslash _ _ heq
  have hidx := matchIndex_congr fold _ _ (buildConfig configFuncs).Endpoints
    (fun e _ => EqualFold_congr_left fold hfold _ _ e.Path ht)
  rcases fn_cases_index fold (buildConfig configFuncs) w1 r1 s1 hb1 hm1 with
    ⟨hn1, hd1⟩ | ⟨k1, E1, hk1, hE1, ha1⟩
  · rcases fn_cases_index fold (buildConfig configFuncs) w2 r2 s2 hb2 hm2 with
      ⟨_, hd2⟩ | ⟨k2, E2, hk2, _, _⟩
    · exact Or.inl ⟨hd1, hd2⟩
    · rw [hidx, hk2] at hn1
      exact absurd hn1 (by simp)
  · rcases fn_cases_index fold (buildConfig configFuncs) w2 r2 s2 hb2 hm2 with
      ⟨hn2, _⟩ | ⟨k2, E2, hk2, hE2, ha2⟩
    · rw [← hidx, hk1] at hn2
      exact absurd hn2 (by simp)
    · have hkk : k1 = k2 := by
        rw [hidx, hk2] at hk1
        exact (Option.some.inj hk1).symm
      subst hkk
      have hEE : E1 = E2 := by
        rw [hE1] at hE2
        exact Option.some.inj hE2
      subst hEE
      exact Or.inr ⟨k1, E1, hE1, hk1, hk2, ha1, ha2⟩

/-- Witness for C11: the default endpoints, GET `/LiveZ` and HEAD `/livez`. -/
theorem case_insensitive_consistent_witness :
    EqualFold asciiFold (request "GET" "/LiveZ").URL.Path (request "HEAD" "/livez").URL.Path = true
      ∧ ((Delegates (NewHealthChecker asciiFold ([] : List (configFunc Unit))) []
            (request "GET" "/LiveZ") () (evalNext (buildConfig []) (request "GET" "/LiveZ") ()).2
          ∧ Delegates (NewHealthChecker asciiFold ([] : List (configFunc Unit))) []
            (request "HEAD" "/livez") () (evalNext (buildConfig []) (request "HEAD" "/livez") ()).2)
        ∨ ∃ k E, (buildConfig ([] : List (configFunc Unit))).Endpoints[k]? = some E
          ∧ matchIndex asciiFold (TrimSuffix (request "GET" "/LiveZ").URL.Path (str "/"))
              (buildConfig ([] : List (configFunc Unit))).Endpoints = some k
          ∧ matchIndex asciiFold (TrimSuffix (request "HEAD" "/livez").URL.Path (str "/"))
              (buildConfig ([] : List (configFunc Unit))).Endpoints = some k
          ∧ Answers (NewHealthChecker asciiFold ([] : List (configFunc Unit))) []
              (request "GET" "/LiveZ") ()
              (if (E.Probe (request "GET" "/LiveZ")
                (evalNext (buildConfig []) (request "GET" "/LiveZ") ()).2).1 then 200 else 503)
              (E.Probe (request "GET" "/LiveZ")
                (evalNext (buildConfig []) (request "GET" "/LiveZ") ()).2).2
          ∧ Answers (NewHealthChecker asciiFold ([] : List (configFunc Unit))) []
              (request "HEAD" "/livez") ()
              (if (E.Probe (request "HEAD" "/livez")
                (evalNext (buildConfig []) (request "HEAD" "/livez") ()).2).1 then 200 else 503)
              (E.Probe (request "HEAD" "/livez")
                (evalNext (buildConfig []) (request "HEAD" "/livez") ()).2).2)
      ∧ matchIndex asciiFold (TrimSuffix (request "GET" "/LiveZ").URL.Path (str "/"))
          (buildConfig ([] : List (configFunc Unit))).Endpoints = some 0 :=
  ⟨by decide,
    case_insensitive_consistent asciiFold foldTransitive_asciiFold slashFoldsAlone_asciiFold
      ([] : List (configFunc Unit)) [] [] (request "GET" "/LiveZ") (request "HEAD" "/livez") () ()
      rfl rfl (Or.inl (by decide)) (Or.inr (by decide)) (by decide),
    by decide⟩

/-! ## C12 -/

theorem TrimSuffix_slash_eq (p : GoString) :
    TrimSuffix p (str "/") = if HasSuffix p (str "/") then p.dropLast else p := by
  unfold TrimSuffix
  split
  · rw [List.dropLast_eq_take, str_slash]
    rfl
  · rfl

theorem HasSuffix_append_slash (p : GoString) : HasSuffix (p ++ str "/") (str "/") = true := by
  rw [str_slash]
  exact (HasSuffix_slash_iff _).mpr ⟨p, rfl⟩

/-- C12: the normalized path of p is p without its last byte when p ends in
"/" and p itself otherwise, so one "/" at most is stripped; the normalized
path of P followed by two slashes is P followed by one slash, which no
endpoint path P equals under the case-insensitive comparison (GET `/livez//`
goes to the next handler with the defaults); and on a path ending in "//"
normalizing twice differs from normalizing once. -/
theorem normalization_strips_one_slash {σ : Type} (fold : Nat → Nat → Bool) (p P : GoString)
    (next : Handler σ) (w : ResponseWriter) (s : σ) :
    TrimSuffix p (str "/") = (if HasSuffix p (str "/") then p.dropLast else p)
      ∧ (HasSuffix p (str "/") = true ↔ p.getLast? = some 47)
      ∧ TrimSuffix (P ++ str "/" ++ str "/") (str "/") = P ++ str "/"
      ∧ EqualFold fold (TrimSuffix (P ++ str "/" ++ str "/") (str "/")) P = false
      ∧ NewHealthChecker asciiFold ([] : List (configFunc σ)) next w (request "GET" "/livez//") s
          = next w (request "GET" "/livez//") s
      ∧ TrimSuffix (TrimSuffix (P ++ str "/" ++ str "/") (str "/")) (str "/")
          ≠ TrimSuffix (P ++ str "/" ++ str "/") (str "/") := by
  refine ⟨TrimSuffix_slash_eq p, ?_, TrimSuffix_slash_append _, ?_, ?_, ?_⟩
  · rw [HasSuffix_slash_iff]
    constructor
    · rintro ⟨q, rfl⟩
      simp
    · intro h
      rcases List.eq_nil_or_concat p with h0 | ⟨q, c, hq⟩
      · subst h0
        simp at h
      · subst hq
        simp at h
        exact ⟨q, by rw [h, List.concat_eq_append]⟩
  · rw [TrimSuffix_slash_append, str_slash]
    exact EqualFold_slash_left fold P
  · have hd : Delegates (fn asciiFold (buildConfig ([] : List (configFunc σ)))) w
        (request "GET" "/livez//") s s := by
      apply fn_delegates_of_no_match asciiFold (buildConfig []) w _ s rfl
      intro e he
      have hmem := mem_default_paths e he
      have ht : TrimSuffix (request "GET" "/livez//").URL.Path (str "/")
          = str "/livez/" := by decide
      rw [ht]
      rcases hmem with h | h | h <;> rw [h] <;> decide
    exact hd next
  · rw [TrimSuffix_slash_append, TrimSuffix_slash_append]
    intro h
    have := congrArg List.length h
    rw [str_slash] at this
    simp at this

/-! ## C14 -/

/-- C14: an endpoint whose path P ends in "/" is selected only by a request
whose path ends in "//": the path is q followed by "/", where q ends in "/"
and equals P under the case-insensitive comparison; in particular a request
for the path P itself does not select it.  With the single endpoint
`/health/`, GET `/health/` and GET `/health` are delegated; an endpoint with
the empty path is selected by GET `/`.  The comparison is `strings.EqualFold`
over a fold table in which "/" folds with no other rune. -/
theorem trailing_slash_endpoint {σ : Type} (fold : Nat → Nat → Bool)
    (hslash : SlashFoldsAlone fold) (cfg : config σ) (E : Endpoint σ) (r : Request)
    (hP : HasSuffix E.Path (str "/") = true)
    (hsel : firstMatch fold (TrimSuffix r.URL.Path (str "/")) cfg.Endpoints = some E) :
    (∃ q, r.URL.Path = q ++ str "/" ∧ HasSuffix q (str "/") = true
        ∧ EqualFold fold q E.Path = true)
      ∧ r.URL.Path ≠ E.Path
      ∧ (∀ (next : Handler σ) (w : ResponseWriter) (s : σ),
          NewHealthChecker asciiFold [WithEndpointDefaultProbe (str "/health/")] next w
              (request "GET" "/health/") s = next w (request "GET" "/health/") s
          ∧ NewHealthChecker asciiFold [WithEndpointDefaultProbe (str "/health/")] next w
              (request "GET" "/health") s = next w (request "GET" "/health") s
          ∧ NewHealthChecker asciiFold [WithEndpointDefaultProbe (str "")] next w
              (request "GET" "/") s = (w ++ answer 200, s)) := by
  have hm := (firstMatch_some_mem fold _ _ E hsel).2
  obtain ⟨P1, hP1⟩ := (HasSuffix_slash_iff E.Path).mp hP
  have hq : ∃ q, r.URL.Path = q ++ str "/" ∧ HasSuffix q (str "/") = true
      ∧ EqualFold fold q E.Path = true := by
    rw [hP1] at hm
    obtain ⟨t1, ht1, _⟩ := EqualFold_append_slash fold hslash _ _ hm
    cases hr : HasSuffix r.URL.Path (str "/") with
    | false =>
      rw [TrimSuffix_no_slash _ hr] at ht1
      have := (HasSuffix_slash_iff r.URL.Path).mpr ⟨t1, ht1⟩
      rw [hr] at this
      exact absurd this (by decide)
    | true =>
      obtain ⟨q, hq⟩ := (HasSuffix_slash_iff r.URL.Path).mp hr
      refine ⟨q, by rw [hq, str_slash], ?_, ?_⟩
      · rw [hq, ← str_slash, TrimSuffix_slash_append] at ht1
        exact (HasSuffix_slash_iff q).mpr ⟨t1, ht1⟩
      · rw [hq, ← str_slash, TrimSuffix_slash_append] at hm
        rw [hP1]
        exact hm
  refine ⟨hq, ?_, ?_⟩
  · intro hsame
    rw [hsame, hP1, ← str_slash, TrimSuffix_slash_append, str_slash,
      EqualFold_slash_right fold P1] at hm
    exact absurd hm (by decide)
  · intro next w s
    refine ⟨?_, ?_, ?_⟩
    · have hd : Delegates (fn asciiFold (buildConfig [WithEndpointDefaultProbe (str "/health/")]))
          w (request "GET" "/health/") s s := by
        apply fn_delegates_of_no_match asciiFold _ w _ s rfl
        intro e he
        have : e.Path = str "/health/" := by
          simp [buildConfig, injectDefaults, applyConfigFuncs, WithEndpointDefaultProbe] at he
          subst he
          rfl
        rw [this]
        decide
      exact hd next
    · have hd : Delegates (fn asciiFold (buildConfig [WithEndpointDefaultProbe (str "/health/")]))
          w (request "GET" "/health") s s := by
        apply fn_delegates_of_no_match asciiFold _ w _ s rfl
        intro e he
        have : e.Path = str "/health/" := by
          simp [buildConfig, injectDefaults, applyConfigFuncs, WithEndpointDefaultProbe] at he
          subst he
          rfl
        rw [this]
        decide
      exact hd next
    · have hE : EqualFold asciiFold (TrimSuffix (str "/") (str "/")) (str "") = true := by decide
      have := fn_first_match asciiFold (buildConfig [WithEndpointDefaultProbe (str "")])
        next w (request "GET" "/") s [] { Path := str "", Probe := defaultProbe } []
        rfl (Or.inl (by decide)) rfl (by simp) hE
      simpa [NewHealthChecker, defaultProbe] using this

/-- Witness for C14: the single endpoint `/health/` is selected by GET
`/health//`. -/
theorem trailing_slash_endpoint_witness :
    firstMatch asciiFold (TrimSuffix (request "GET" "/health//").URL.Path (str "/"))
        (buildConfig [WithEndpointDefaultProbe (str "/health/")] : config Unit).Endpoints
        = some { Path := str "/health/", Probe := defaultProbe }
      ∧ ∃ q, (request "GET" "/health//").URL.Path = q ++ str "/"
        ∧ HasSuffix q (str "/") = true ∧ EqualFold asciiFold q (str "/health/") = true :=
  ⟨rfl,
    (trailing_slash_endpoint asciiFold slashFoldsAlone_asciiFold
      (buildConfig [WithEndpointDefaultProbe (str "/health/")] : config Unit)
      { Path := str "/health/", Probe := defaultProbe } (request "GET" "/health//")
      (by decide) rfl).1⟩

/-! ## C13 -/

theorem evalNext_log {σ : Type} (cfg : config σ) (r : Request) (s : σ) (log : ProbeLog) :
    evalNext (logConfig cfg) r (s, log) = ((evalNext cfg r s).1, ((evalNext cfg r s).2, log)) := by
  cases h : cfg.Next with
  | none => simp [evalNext, logConfig, h]
  | some n => simp [evalNext, logConfig, h, liftPred]

theorem serveEndpoints_log {σ : Type} (fold : Nat → Nat → Bool) (t : GoString) (next : Handler σ)
    (w : ResponseWriter) (r : Request) :
    ∀ (eps : List (Endpoint σ)) (i : Nat) (s : σ) (log : ProbeLog),
      serveEndpoints fold t (liftHandler next) w r (logEndpoints i eps) (s, log) =
        ((serveEndpoints fold t next w r eps s).1,
          ((serveEndpoints fold t next w r eps s).2,
            log ++ ((matchIndex fold t eps).map (fun k => (i + k, r))).toList)) := by
  intro eps
  induction eps with
  | nil =>
    intro i s log
    simp [serveEndpoints, logEndpoints, matchIndex, liftHandler]
  | cons e rest ih =>
    intro i s log
    by_cases h : EqualFold fold t e.Path = true
    · by_cases hp : (e.Probe r s).1 = true
      · simp [serveEndpoints, logEndpoints, matchIndex, h, hp, logProbe]
      · simp [serveEndpoints, logEndpoints, matchIndex, h, hp, logProbe]
    · simp only [serveEndpoints, logEndpoints, matchIndex, h, ih]
      cases matchIndex fold t rest with
      | none => simp
      | some k => simp [Nat.add_assoc, Nat.add_comm 1 k]

/-- The handler with recording probes is the handler, and the record gets
the position of the selected endpoint with the request, once, when the
request is intercepted, and nothing otherwise. -/
theorem fn_log {σ : Type} (fold : Nat → Nat → Bool) (cfg : config σ) (next : Handler σ)
    (w : ResponseWriter) (r : Request) (s : σ) (log : ProbeLog) :
    fn fold (logConfig cfg) (liftHandler next) w r (s, log) =
      ((fn fold cfg next w r s).1,
        ((fn fold cfg next w r s).2,
          log ++
            (if (evalNext cfg r s).1 = true then []
              else if r.Method ≠ MethodGet ∧ r.Method ≠ MethodHead then []
              else ((matchIndex fold (TrimSuffix r.URL.Path (str "/")) cfg.Endpoints).map
                (fun k => (k, r))).toList))) := by
  simp only [fn, evalNext_log]
  by_cases hb : (evalNext cfg r s).1 = true
  · simp [hb, liftHandler]
  · by_cases hm : r.Method ≠ MethodGet ∧ r.Method ≠ MethodHead
    · simp [hb, hm, liftHandler]
    · have hl : (logConfig cfg).Endpoints = logEndpoints 0 cfg.Endpoints := rfl
      simp only [hb, hm, if_false, hl, serveEndpoints_log]
      simp

/-- C13: run with recording probes, the handler behaves as without; on an
intercepted request the record holds exactly one invocation, of the probe of
the selected endpoint with the request as received, and that probe's answer
in the state of the request decides the status; on a delegated request the
record is empty.  With the probe of the tests, GET `/ready` is answered 503
while the channel is empty and 200 once a value waits in it. -/
theorem probe_invoked_once {σ : Type} (fold : Nat → Nat → Bool) (cfg : config σ)
    (next : Handler σ) (w : ResponseWriter) (r : Request) (s : σ) :
    ((fn fold (logConfig cfg) (liftHandler next) w r (s, [])).1 = (fn fold cfg next w r s).1
        ∧ (fn fold (logConfig cfg) (liftHandler next) w r (s, [])).2.1 = (fn fold cfg next w r s).2)
      ∧ ((Intercepts fold cfg r s ∧ ∃ k E, cfg.Endpoints[k]? = some E
            ∧ matchIndex fold (TrimSuffix r.URL.Path (str "/")) cfg.Endpoints = some k
            ∧ (fn fold (logConfig cfg) (liftHandler next) w r (s, [])).2.2 = [(k, r)]
            ∧ fn fold cfg next w r s
              = (w ++ answer (if (E.Probe r (evalNext cfg r s).2).1 then 200 else 503),
                  (E.Probe r (evalNext cfg r s).2).2))
        ∨ (¬ Intercepts fold cfg r s
            ∧ (fn fold (logConfig cfg) (liftHandler next) w r (s, [])).2.2 = []
            ∧ fn fold cfg next w r s = next w r (evalNext cfg r s).2))
      ∧ NewHealthChecker asciiFold [WithEndpoint (str "/ready") channelProbe] notFound []
          (request "GET" "/ready") 0 = (answer 503, 0)
      ∧ NewHealthChecker asciiFold [WithEndpoint (str "/ready") channelProbe] notFound []
          (request "GET" "/ready") 1 = (answer 200, 0) := by
  refine ⟨⟨by rw [fn_log], by rw [fn_log]⟩, ?_, by decide, by decide⟩
  rcases fn_cases fold cfg w r s with ⟨hI, e, hfm, _⟩ | ⟨hn, hd⟩
  · left
    have hb : (evalNext cfg r s).1 = false := (evalNext_false_iff cfg r s).mpr hI.1
    have hm : r.Method = MethodGet ∨ r.Method = MethodHead := hI.2.1
    have hm2 : ¬ (r.Method ≠ MethodGet ∧ r.Method ≠ MethodHead) := by
      rcases hm with h | h <;> simp [h]
    rcases fn_cases_index fold cfg w r s hb hm with ⟨hnone, _⟩ | ⟨k, E, hk, hE, ha⟩
    · have := firstMatch_eq_matchIndex fold (TrimSuffix r.URL.Path (str "/")) cfg.Endpoints
      rw [hnone, hfm] at this
      simp at this
    · refine ⟨hI, k, E, hE, hk, ?_, ha next⟩
      rw [fn_log]
      simp [hb, hm2, hk]
  · right
    refine ⟨hn, ?_, hd next⟩
    rw [fn_log]
    by_cases hb : (evalNext cfg r s).1 = true
    · simp [hb]
    · by_cases hm : r.Method ≠ MethodGet ∧ r.Method ≠ MethodHead
      · simp [hb, hm]
      · have hb1 : (evalNext cfg r s).1 = false := by simpa using hb
        have hm1 : r.Method = MethodGet ∨ r.Method = MethodHead := by
          by_cases hg : r.Method = MethodGet
          · exact Or.inl hg
          · by_cases hh : r.Method = MethodHead
            · exact Or.inr hh
            · exact absurd ⟨hg, hh⟩ hm
        rcases fn_cases_index fold cfg w r s hb1 hm1 with ⟨hnone, _⟩ | ⟨k, E, hk, hE, _⟩
        · simp [hb, hm, hnone]
        · exfalso
          obtain ⟨E1, hE1, hmatch, _⟩ := matchIndex_some fold _ cfg.Endpoints k hk
          exact hn ⟨(evalNext_false_iff cfg r s).mp hb1, hm1, E1, List.getElem?_mem hE1, hmatch⟩

/-! ## C15 -/

theorem foldl_apply_next {σ : Type} (opts : List (ConfigOption σ)) (c : config σ) :
    ((opts.map ConfigOption.apply).foldl (fun cfg configFunc => configFunc cfg) c).Next
      = (opts.filterMap ConfigOption.nextArg).getLastD c.Next := by
  induction opts generalizing c with
  | nil => rfl
  | cons o rest ih =>
    rw [List.map_cons, List.foldl_cons, ih]
    cases o with
    | withEndpointDefaultProbe path => rfl
    | withEndpoint path probe => rfl
    | withNext n =>
      show (List.filterMap ConfigOption.nextArg rest).getLastD n
        = (n :: List.filterMap ConfigOption.nextArg rest).getLastD c.Next
      rw [List.getLastD_cons]

theorem buildConfig_append_WithNext {σ : Type} (configFuncs : List (configFunc σ))
    (n : Option (Request → σ → Bool × σ)) :
    (buildConfig (configFuncs ++ [WithNext n])).Next = n
      ∧ (buildConfig (configFuncs ++ [WithNext n])).Endpoints
        = (buildConfig configFuncs).Endpoints := by
  simp only [buildConfig, applyConfigFuncs, List.foldl_append, List.foldl_cons, List.foldl_nil,
    WithNext, injectDefaults]
  constructor
  · split <;> rfl
  · split <;> rfl

theorem fn_never {σ : Type} (fold : Nat → Nat → Bool) (cfg1 cfg2 : config σ)
    (next : Handler σ) (w : ResponseWriter) (r : Request) (s : σ)
    (he : cfg1.Endpoints = cfg2.Endpoints) (h1 : cfg1.Next = none)
    (h2 : ∃ n, cfg2.Next = some n ∧ n r s = (false, s)) :
    fn fold cfg1 next w r s = fn fold cfg2 next w r s := by
  obtain ⟨n, hn, hnr⟩ := h2
  rw [fn_eq, fn_eq, evalNext_none cfg1 r s h1, evalNext_some cfg2 r s n hn, hnr, he]

/-- C15: the bypass predicate of the configuration is the argument of the
last `WithNext` option of the sequence, nil when there is none or when that
argument is nil; `WithNext` leaves the endpoint list as it is and the
endpoint options leave the bypass predicate as it is; and the handler built
with a nil bypass predicate gives on every request the outcome of the handler
built from the same options with the predicate that returns false (and does
nothing else, as every predicate that returns false on the request and leaves
the external state as it is). -/
theorem bypass_configuration {σ : Type} (fold : Nat → Nat → Bool) (opts : List (ConfigOption σ))
    (configFuncs : List (configFunc σ)) (next : Handler σ) (w : ResponseWriter) (r : Request)
    (s : σ) :
    (buildConfig (opts.map ConfigOption.apply)).Next = lastNext opts
      ∧ lastNext ([] : List (ConfigOption σ)) = none
      ∧ (∀ n : Option (Request → σ → Bool × σ),
          lastNext (opts ++ [ConfigOption.withNext n]) = n)
      ∧ (∀ (path : GoString) (probe : HealthChecker σ),
          lastNext (opts ++ [ConfigOption.withEndpoint path probe]) = lastNext opts
            ∧ lastNext (opts ++ [ConfigOption.withEndpointDefaultProbe path]) = lastNext opts)
      ∧ (∀ (n : Option (Request → σ → Bool × σ)) (c : config σ),
          (WithNext n c).Endpoints = c.Endpoints)
      ∧ (∀ (path : GoString) (probe : HealthChecker σ) (c : config σ),
          (WithEndpoint path probe c).Next = c.Next
            ∧ (WithEndpointDefaultProbe path c).Next = c.Next)
      ∧ NewHealthChecker fold (configFuncs ++ [WithNext none]) next w r s
          = NewHealthChecker fold (configFuncs ++ [WithNext (some never)]) next w r s
      ∧ (∀ (eps : List (Endpoint σ)) (n : Request → σ → Bool × σ), n r s = (false, s) →
          fn fold { Next := none, Endpoints := eps } next w r s
            = fn fold { Next := some n, Endpoints := eps } next w r s) := by
  refine ⟨?_, rfl, ?_, ?_, fun _ _ => rfl, fun _ _ _ => ⟨rfl, rfl⟩, ?_, ?_⟩
  · rw [buildConfig, injectDefaults_next, applyConfigFuncs, foldl_apply_next]
    rfl
  · intro n
    unfold lastNext
    rw [List.filterMap_append]
    exact List.getLastD_concat _ _ _
  · intro path probe
    unfold lastNext
    constructor <;> rw [List.filterMap_append] <;> simp [ConfigOption.nextArg]
  · have h1 := buildConfig_append_WithNext configFuncs (none : Option (Request → σ → Bool × σ))
    have h2 := buildConfig_append_WithNext configFuncs (some (never : Request → σ → Bool × σ))
    exact fn_never fold _ _ next w r s (h1.2.trans h2.2.symm) h1.1 ⟨never, h2.1, rfl⟩
  · intro eps n hn
    exact fn_never fold _ _ next w r s rfl rfl ⟨n, rfl, hn⟩

/-! ## C7 -/

theorem slashFoldsAlone_acuteFold : SlashFoldsAlone acuteFold := fun _ => rfl

/-- A path equal under `EqualFold` to an endpoint path followed by "/", or to
an endpoint path that does not end in "/", has a normalized path equal under
`EqualFold` to the endpoint path. -/
theorem EqualFold_TrimSuffix_endpoint (fold : Nat → Nat → Bool) (hslash : SlashFoldsAlone fold)
    (path P : GoString)
    (hpath : EqualFold fold path (P ++ str "/") = true
      ∨ (EqualFold fold path P = true ∧ HasSuffix P (str "/") = false)) :
    EqualFold fold (TrimSuffix path (str "/")) P = true := by
  rcases hpath with h | ⟨h, hs⟩
  · rw [str_slash] at h
    obtain ⟨q, hq, hc⟩ := EqualFold_append_slash fold hslash _ _ h
    rw [hq, ← str_slash, TrimSuffix_slash_append]
    exact hc
  · cases hr : HasSuffix path (str "/") with
    | false =>
      rw [TrimSuffix_no_slash _ hr]
      exact h
    | true =>
      obtain ⟨q, hq⟩ := (HasSuffix_slash_iff path).mp hr
      rw [hq] at h
      obtain ⟨p1, hp1, _⟩ := EqualFold_append_slash fold hslash P q ((EqualFold_comm fold _ _).mp h)
      have := (HasSuffix_slash_iff P).mpr ⟨p1, hp1⟩
      rw [hs] at this
      exact absurd this (by decide)

/-- C7 as stated fails twice.  (a) The endpoint path P = `/health/` ends in
"/": a GET whose path is P is handed to the next handler (404 here).  (b) Of
two endpoints `/x`, the second has a healthy probe, and a GET `/x` is answered
503, by the probe of the first.  All paths are ASCII, so the fold table plays
no part (`fn_ascii`). -/
theorem C7_counterexample :
    ((buildConfig [WithEndpointDefaultProbe (str "/health/")] : config Unit).Endpoints.map
          (fun e => e.Path) = [str "/health/"]
      ∧ NewHealthChecker asciiFold [WithEndpointDefaultProbe (str "/health/")] notFound []
          (request "GET" "/health/") ()
        = ([WriterCall.WriteHeader 404, WriterCall.Write (str "404 page not found\n")], ()))
    ∧ ((buildConfig [WithEndpoint (str "/x") unhealthy, WithEndpoint (str "/x") defaultProbe]
          : config Unit).Endpoints.getLast?
        = some { Path := str "/x", Probe := defaultProbe }
      ∧ ((defaultProbe : HealthChecker Unit) (request "GET" "/x") ()).1 = true
      ∧ (NewHealthChecker asciiFold
            [WithEndpoint (str "/x") unhealthy, WithEndpoint (str "/x") defaultProbe]
            notFound [] (request "GET" "/x") ()).1
          = answer 503) := by
  refine ⟨⟨by decide, by decide⟩, ⟨rfl, rfl, by decide⟩⟩

/-- C7, amended: for every configured endpoint with path P and every GET or
HEAD request that is not bypassed and whose path, written in any letter case
(equal under the handler's case-insensitive comparison), is P followed by
"/", or P itself when P does not end in "/", the request is intercepted and
answered with Content-Type text/plain and status 200 or 503 according to the
probe of the first configured endpoint whose path equals the stripped request
path case-insensitively; that is the endpoint's own probe when no earlier
endpoint has such a path.  The comparison is `strings.EqualFold` over a fold
table in which "/" folds with no other rune. -/
theorem runtime_surface {σ : Type} (fold : Nat → Nat → Bool) (hslash : SlashFoldsAlone fold)
    (configFuncs : List (configFunc σ))
    (next : Handler σ) (w : ResponseWriter) (r : Request) (s : σ) (E : Endpoint σ)
    (hE : E ∈ (buildConfig configFuncs).Endpoints)
    (hbypass : (evalNext (buildConfig configFuncs) r s).1 = false)
    (hmethod : r.Method = MethodGet ∨ r.Method = MethodHead)
    (hpath : EqualFold fold r.URL.Path (E.Path ++ str "/") = true
      ∨ (EqualFold fold r.URL.Path E.Path = true ∧ HasSuffix E.Path (str "/") = false)) :
    ∃ F, firstMatch fold (TrimSuffix r.URL.Path (str "/")) (buildConfig configFuncs).Endpoints = some F
      ∧ NewHealthChecker fold configFuncs next w r s
        = (w ++ answer (if (F.Probe r (evalNext (buildConfig configFuncs) r s).2).1 then 200 else 503),
            (F.Probe r (evalNext (buildConfig configFuncs) r s).2).2)
      ∧ (∀ pre post, (buildConfig configFuncs).Endpoints = pre ++ E :: post →
          (∀ e ∈ pre, EqualFold fold (TrimSuffix r.URL.Path (str "/")) e.Path = false) → F = E) := by
  have hmatch : EqualFold fold (TrimSuffix r.URL.Path (str "/")) E.Path = true :=
    EqualFold_TrimSuffix_endpoint fold hslash _ _ hpath
  cases hfm : firstMatch fold (TrimSuffix r.URL.Path (str "/")) (buildConfig configFuncs).Endpoints with
  | none =>
    have := (firstMatch_none_iff fold _ _).mp hfm E hE
    rw [hmatch] at this
    exact absurd this (by decide)
  | some F =>
    have hm2 : ¬ (r.Method ≠ MethodGet ∧ r.Method ≠ MethodHead) := by
      rcases hmethod with h | h <;> simp [h]
    refine ⟨F, rfl, ?_, ?_⟩
    · simp only [NewHealthChecker, fn_eq, hbypass, hm2, hfm]
      simp
    · intro pre post hlist hpre
      have := firstMatch_append fold _ pre E post hpre hmatch
      rw [← hlist, hfm] at this
      exact Option.some.inj this

/-- Witness for C7 amended: `/live` then `/ready` (unhealthy), HEAD `/READY/`
is answered 503; and with the single endpoint `/é` (unhealthy) and the fold
pair of "É" and "é", GET `/É/` is answered 503. -/
theorem runtime_surface_witness :
    (EqualFold asciiFold (request "HEAD" "/READY/").URL.Path (str "/ready" ++ str "/") = true
      ∧ NewHealthChecker asciiFold
          [WithEndpointDefaultProbe (str "/live"), WithEndpoint (str "/ready") unhealthy]
          notFound [] (request "HEAD" "/READY/") ()
        = (answer 503, ()))
    ∧ (EqualFold acuteFold [0x2F, 0xC3, 0x89, 0x2F] ([0x2F, 0xC3, 0xA9] ++ str "/") = true
      ∧ caseVariant [0x2F, 0xC3, 0x89, 0x2F] ([0x2F, 0xC3, 0xA9] ++ str "/") = false
      ∧ NewHealthChecker acuteFold [WithEndpoint [0x2F, 0xC3, 0xA9] unhealthy]
          notFound [] (withPath (request "GET" "/") [0x2F, 0xC3, 0x89, 0x2F]) ()
        = (answer 503, ())) := by
  refine ⟨⟨by decide, ?_⟩, ⟨by decide, by decide, ?_⟩⟩
  · obtain ⟨F, _, hres, hown⟩ := runtime_surface asciiFold slashFoldsAlone_asciiFold
      [WithEndpointDefaultProbe (str "/live"), WithEndpoint (str "/ready") unhealthy]
      notFound [] (request "HEAD" "/READY/") () { Path := str "/ready", Probe := unhealthy }
      (by simp [buildConfig, injectDefaults, applyConfigFuncs, WithEndpointDefaultProbe, WithEndpoint])
      rfl (Or.inr (by decide)) (Or.inl (by decide))
    have hF := hown [{ Path := str "/live", Probe := defaultProbe }] [] rfl
      (by intro e he; simp at he; subst he; decide)
    subst hF
    simpa [unhealthy, answer] using hres
  · obtain ⟨F, _, hres, hown⟩ := runtime_surface acuteFold slashFoldsAlone_acuteFold
      [WithEndpoint [0x2F, 0xC3, 0xA9] unhealthy]
      notFound [] (withPath (request "GET" "/") [0x2F, 0xC3, 0x89, 0x2F]) ()
      { Path := [0x2F, 0xC3, 0xA9], Probe := unhealthy }
      (by simp [buildConfig, injectDefaults, applyConfigFuncs, WithEndpoint])
      rfl (Or.inl (by decide)) (Or.inl (by decide))
    have hF := hown [] [] rfl (by simp)
    subst hF
    simpa [unhealthy, answer] using hres

end Healthcheck
